import Mathlib

/-!
# PicoVoiceCpp: a shallow embedding of `src/PicoVoiceCpp.cpp`

The C++ class `Pico` wraps the SVOX Pico text-to-speech engine and the libao
audio device.  The engine and the device are external; they are embedded as
oracles (records of response functions) and every call made to them is written
to a log, so that statements about "what was submitted", "what was played" and
"what was released" are statements about that log.

Conventions of the embedding:
* `std::string` is a list of bytes (`StdString`), `c_str()` appends one NUL;
* a pointer-typed member is an `Option Nat`, `nullptr` being `none`;
* `int` members are `Int`; `pico_Int16` arithmetic goes through `wrap16`;
* an operation with undefined behaviour returns `none`;
* the two loops of `Process` take a fuel argument and report `Outcome.running`
  when it is used up.
-/

namespace PicoVoice

/-! ## Strings -/

abbrev Byte := UInt8

/-- A `std::string`: its `size()` bytes, without the terminator. -/
abbrev StdString := List Byte

/-- The bytes of a string literal of the source (UTF-8). -/
def lit (s : String) : StdString := s.toUTF8.data.toList

/-- What `oss << n` writes for an `int`: its decimal digits, with a leading
minus sign when negative. -/
def decimal (n : Int) : StdString := lit (toString n)

/-- The array `c_str()` points to: the bytes followed by the terminator. -/
def c_str (s : StdString) : List Byte := s ++ [0]

/-! ## The session -/

/-- A pointer-typed member; `none` is `nullptr`. -/
abbrev Handle := Option Nat

/-- The libao sample format `ao_sample_format` (the `matrix` member is a pointer). -/
structure SampleFormat where
  bits : Int
  channels : Int
  rate : Int
  byte_format : Int
  matrix : Handle
  deriving DecidableEq, Repr

/-- Value of `AO_FMT_LITTLE` in `ao/ao.h`. -/
def AO_FMT_LITTLE : Int := 1

/-- The data members of `class Pico` (the constants `m_VoiceParts`,
`m_VoiceName` and the three buffer sizes are definitions below). -/
structure Pico where
  sdOutFile : Handle
  out_filename : Option StdString
  m_Speed : Int
  m_Pitch : Int
  m_Volume : Int
  m_ResourcePath : StdString
  m_LastError : StdString
  m_PicoMemArea : Handle
  m_PicoSystem : Handle
  m_PicoTaResource : Handle
  m_PicoSgResource : Handle
  m_PicoEngine : Handle
  m_VoiceLang : StdString
  m_PcmFormat : SampleFormat
  m_PcmDevice : Handle
  m_PcmDriver : Int
  deriving DecidableEq, Repr

def OUT_BUFFER_SIZE : Nat := 256
def PCM_BUFFER_SIZE : Nat := 512
def WRK_BUFFER_SIZE : Nat := 2500000

/-- The table `m_VoiceParts`, in key order. -/
def m_VoiceParts : List (StdString × StdString) :=
  [ (lit "de-DE", lit "gl0"),
    (lit "en-GB", lit "kh0"),
    (lit "en-US", lit "lh0"),
    (lit "es-ES", lit "zl0"),
    (lit "fr-FR", lit "nk0"),
    (lit "it-IT", lit "cm0") ]

def m_VoiceName : StdString := lit "DefaultVoice"

/-- The constructor `Pico::Pico()`. -/
def Pico.new : Pico where
  m_PicoEngine := none
  m_PicoTaResource := none
  m_PicoSgResource := none
  m_PicoSystem := none
  m_PicoMemArea := none
  sdOutFile := none
  out_filename := none
  m_PcmFormat :=
    { bits := 2 * 8, channels := 1, rate := 16000, byte_format := AO_FMT_LITTLE, matrix := none }
  m_PcmDevice := none
  m_PcmDriver := 0
  m_Speed := 88
  m_Pitch := 105
  m_Volume := 100
  m_ResourcePath := lit "./lang/"
  m_VoiceLang := lit "FR-fr"
  m_LastError := []

/-- The member function `setOutFilename`. -/
def setOutFilename (s : Pico) (fn : StdString) : Pico := { s with out_filename := some fn }

/-- The member function `Pico::SetPath`.  `m_ResourcePath.back()` requires a
non-empty string; on an empty one its behaviour is undefined, which is `none`
here. -/
def SetPath (s : Pico) (path : StdString) : Option Pico :=
  let s1 := { s with m_ResourcePath := path }
  match s1.m_ResourcePath.getLast? with
  | none => none
  | some back =>
    if back ≠ 47 ∧ back ≠ 92 then
      some { s1 with m_ResourcePath := s1.m_ResourcePath ++ [47] }
    else
      some s1

/-- The member function `Pico::SetPicoError`.  `statusMessage` is the text
`pico_getSystemStatusMessage` writes for an error number. -/
def SetPicoError (statusMessage : Int → StdString) (s : Pico) (text : StdString)
    (errorNo : Int) : Pico :=
  if errorNo ≠ 0 then
    let outMessage := statusMessage errorNo
    { s with m_LastError :=
        text ++ lit "(error code " ++ decimal errorNo ++ lit ") : " ++ outMessage }
  else
    { s with m_LastError := text }

def GetPicoError (s : Pico) : StdString := s.m_LastError

/-- The member function `Pico::SetVoice`: the returned flag and the session
afterwards.  With error number 0 `SetPicoError` never asks the engine for a
message, so no oracle is needed. -/
def SetVoice (s : Pico) (lang : StdString) : Bool × Pico :=
  match m_VoiceParts.lookup lang with
  | none => (false, SetPicoError (fun _ => []) s (lit "Unknown voice language") 0)
  | some _ => (true, { s with m_VoiceLang := lang })

/-! ## The prosody setters

`SetSpeed`, `SetPitch` and `SetVolume` take a `float`, multiply it by the `int`
100 (converted to `float`) and assign the product to an `int` member, which is
the implicit floating-to-integer conversion of C++: the fractional part is
discarded, and the behaviour is undefined when the truncated value does not
fit an `int`.  Finite binary32 values are embedded exactly as `mant * 2 ^ exp`
with products rounded to 24 significant bits, ties to even; the exponent range
(overflow to infinity, subnormals) is not bounded. -/

/-- A finite `float` value, `mant * 2 ^ exp`. -/
structure Flt where
  mant : Int
  exp : Int
  deriving DecidableEq, Repr

/-- The rational number a `Flt` stands for. -/
def Flt.toRat (x : Flt) : ℚ := (x.mant : ℚ) * (2 : ℚ) ^ x.exp

/-- Number of binary digits of `n`, by at most `fuel` halvings. -/
def bitLength : Nat → Nat → Nat
  | 0, _ => 0
  | fuel + 1, n => if n = 0 then 0 else bitLength fuel (n / 2) + 1

/-- Rounding of `m * 2 ^ e` to a 24-bit significand, to nearest, ties to even. -/
def roundBinary32 (m : Int) (e : Int) : Flt :=
  let a := m.natAbs
  let k := bitLength a a - 24
  if k = 0 then
    { mant := m, exp := e }
  else
    let q := a / 2 ^ k
    let r := a % 2 ^ k
    let half := 2 ^ (k - 1)
    let q1 := if half < r ∨ (r = half ∧ q % 2 = 1) then q + 1 else q
    { mant := m.sign * q1, exp := e + k }

/-- The `float` product `x * y`. -/
def Flt.mul (x y : Flt) : Flt := roundBinary32 (x.mant * y.mant) (x.exp + y.exp)

/-- Conversion of an `int` to `float`. -/
def Flt.ofInt (n : Int) : Flt := roundBinary32 n 0

/-- The value a `float` has once its fractional part is discarded. -/
def Flt.trunc (x : Flt) : Int :=
  if 0 ≤ x.exp then x.mant * 2 ^ x.exp.toNat else Int.tdiv x.mant (2 ^ (-x.exp).toNat)

/-- Conversion of a `float` to `int`: truncation toward zero, undefined
(`none`) when the truncated value is not an `int` value. -/
def Flt.toInt (x : Flt) : Option Int :=
  if -2147483648 ≤ x.trunc ∧ x.trunc ≤ 2147483647 then some x.trunc else none

/-- The member function `Pico::SetSpeed`. -/
def SetSpeed (s : Pico) (val : Flt) : Option Pico :=
  (Flt.mul val (Flt.ofInt 100)).toInt.map fun k => { s with m_Speed := k }

/-- The member function `Pico::SetPitch`. -/
def SetPitch (s : Pico) (val : Flt) : Option Pico :=
  (Flt.mul val (Flt.ofInt 100)).toInt.map fun k => { s with m_Pitch := k }

/-- The member function `Pico::SetVolume`. -/
def SetVolume (s : Pico) (val : Flt) : Option Pico :=
  (Flt.mul val (Flt.ofInt 100)).toInt.map fun k => { s with m_Volume := k }

/-- The nearest `float` to a decimal literal `num / 10 ^ digits` between 1/2
and 1 (what `0.555f` denotes): 24 significant bits, so a multiple of `2 ^ -24`. -/
def Flt.ofDecimalBelowOne (num digits : Nat) : Flt :=
  let scaled := num * 2 ^ 24
  let d := 10 ^ digits
  let q := scaled / d
  let r := scaled % d
  let q1 := if d < 2 * r ∨ (2 * r = d ∧ q % 2 = 1) then q + 1 else q
  { mant := Int.ofNat q1, exp := -24 }

/-- The spec's `round(r * 100)` on a rational: the nearest integer. -/
def specRound (q : ℚ) : Int := round q

/-! ## Calls to the engine and to the audio library -/

/-- A call made to the engine, the allocator or libao, with its handle
arguments.  `pico_init` stands for `pico_initialize` and `ao_init` for
`ao_initialize`. -/
inductive Call where
  | malloc (size : Nat)
  | pico_init (area : Handle)
  | pico_loadResource (system : Handle) (fileName : StdString)
  | pico_createVoiceDefinition (system : Handle) (voice : StdString)
  | pico_getResourceName (system resource : Handle)
  | pico_addResourceToVoiceDefinition (system : Handle) (voice resName : StdString)
  | pico_newEngine (system : Handle) (voice : StdString)
  | ao_init
  | ao_default_driver_id
  | ao_open_live (driver : Int)
  | pico_disposeEngine (system engine : Handle)
  | pico_releaseVoiceDefinition (system : Handle) (voice : StdString)
  | pico_unloadResource (system resource : Handle)
  | pico_terminate (system : Handle)
  | free (area : Handle)
  | ao_close (device : Handle)
  | ao_shutdown
  deriving DecidableEq, Repr

/-- The member function `Pico::Cleanup`: the session afterwards and the calls
it made, in order. -/
def Cleanup (s : Pico) : Pico × List Call :=
  let r1 : Pico × List Call :=
    if s.m_PicoEngine ≠ none then
      ({ s with m_PicoEngine := none },
        [Call.pico_disposeEngine s.m_PicoSystem s.m_PicoEngine,
         Call.pico_releaseVoiceDefinition s.m_PicoSystem m_VoiceName])
    else (s, [])
  let r2 : Pico × List Call :=
    if r1.1.m_PicoSgResource ≠ none then
      ({ r1.1 with m_PicoSgResource := none },
        r1.2 ++ [Call.pico_unloadResource r1.1.m_PicoSystem r1.1.m_PicoSgResource])
    else r1
  let r3 : Pico × List Call :=
    if r2.1.m_PicoTaResource ≠ none then
      ({ r2.1 with m_PicoTaResource := none },
        r2.2 ++ [Call.pico_unloadResource r2.1.m_PicoSystem r2.1.m_PicoTaResource])
    else r2
  let r4 : Pico × List Call :=
    if r3.1.m_PicoSystem ≠ none then
      ({ r3.1 with m_PicoSystem := none }, r3.2 ++ [Call.pico_terminate r3.1.m_PicoSystem])
    else r3
  let r5 : Pico × List Call :=
    if r4.1.m_PicoMemArea ≠ none then
      ({ r4.1 with m_PicoMemArea := none }, r4.2 ++ [Call.free r4.1.m_PicoMemArea])
    else r4
  if r5.1.m_PcmDevice ≠ none then
    ({ r5.1 with m_PcmDevice := none },
      r5.2 ++ [Call.ao_close r5.1.m_PcmDevice, Call.ao_shutdown])
  else r5

/-- Every handle of the session is absent. -/
def Pico.noHandles (s : Pico) : Prop :=
  s.m_PicoEngine = none ∧ s.m_PicoSgResource = none ∧ s.m_PicoTaResource = none ∧
    s.m_PicoSystem = none ∧ s.m_PicoMemArea = none ∧ s.m_PcmDevice = none

instance (s : Pico) : Decidable s.noHandles := by
  unfold Pico.noHandles; infer_instance

/-! ## Initialization -/

/-- What the allocator, the engine and libao answer during one run of
`InitializeSystem`: the status each call returns and the value it leaves in
the handle it is given.  `statusMessage` is `pico_getSystemStatusMessage`. -/
structure InitOracle where
  malloc : Handle
  pico_init : Int × Handle
  loadTa : Int × Handle
  loadSg : Int × Handle
  createVoiceDefinition : Int
  getTaName : Int × StdString
  addTa : Int
  getSgName : Int × StdString
  addSg : Int
  newEngine : Int × Handle
  default_driver_id : Int
  open_live : Handle
  statusMessage : Int → StdString

/-- How a run of `InitializeSystem` ends: it returns a flag, or
`m_VoiceParts.at` throws `std::out_of_range`. -/
inductive InitOutcome where
  | returned (ok : Bool)
  | threw
  deriving DecidableEq, Repr

structure InitResult where
  outcome : InitOutcome
  session : Pico
  calls : List Call

/-- The failure path shared by every step of `InitializeSystem`:
`SetPicoError(text, ret); Cleanup(); return false;`. -/
def initFail (o : InitOracle) (s : Pico) (calls : List Call) (text : StdString)
    (ret : Int) : InitResult :=
  let c := Cleanup (SetPicoError o.statusMessage s text ret)
  { outcome := InitOutcome.returned false, session := c.1, calls := calls ++ c.2 }

/-- Last step of `InitializeSystem`: initialize libao, find and open the
default audio driver. -/
def initAudio (o : InitOracle) (s : Pico) (log : List Call) : InitResult :=
  let log := log ++ [Call.ao_init, Call.ao_default_driver_id]
  let s := { s with m_PcmDriver := o.default_driver_id }
  let log := log ++ [Call.ao_open_live s.m_PcmDriver]
  let s := { s with m_PcmDevice := o.open_live }
  if s.m_PcmDevice = none then
    initFail o s log (lit "Error opening audio device") 0
  else
    { outcome := InitOutcome.returned true, session := s, calls := log }

/-- Create a new Pico engine, then go on with the audio device. -/
def initEngine (o : InitOracle) (s : Pico) (log : List Call) : InitResult :=
  let log := log ++ [Call.pico_newEngine s.m_PicoSystem m_VoiceName]
  let s := { s with m_PicoEngine := o.newEngine.2 }
  if o.newEngine.1 ≠ 0 then
    initFail o s log (lit "Cannot create a new pico engine") o.newEngine.1
  else
    initAudio o s log

/-- Get the signal generation resource name and add the resource to the
voice, then go on with the engine. -/
def initSgVoice (o : InitOracle) (s : Pico) (log : List Call) : InitResult :=
  let log := log ++ [Call.pico_getResourceName s.m_PicoSystem s.m_PicoSgResource]
  if o.getSgName.1 ≠ 0 then
    initFail o s log (lit "Cannot get the signal generation resource name") o.getSgName.1
  else
    let log := log ++
      [Call.pico_addResourceToVoiceDefinition s.m_PicoSystem m_VoiceName o.getSgName.2]
    if o.addSg ≠ 0 then
      initFail o s log (lit "Cannot add the signal generation resource to the voice") o.addSg
    else
      initEngine o s log

/-- Get the text analysis resource name and add the resource to the voice,
then go on with the signal generation resource. -/
def initTaVoice (o : InitOracle) (s : Pico) (log : List Call) : InitResult :=
  let log := log ++ [Call.pico_getResourceName s.m_PicoSystem s.m_PicoTaResource]
  if o.getTaName.1 ≠ 0 then
    initFail o s log (lit "Cannot get the text analysis resource name") o.getTaName.1
  else
    let log := log ++
      [Call.pico_addResourceToVoiceDefinition s.m_PicoSystem m_VoiceName o.getTaName.2]
    if o.addTa ≠ 0 then
      initFail o s log (lit "Cannot add the text analysis resource to the voice") o.addTa
    else
      initSgVoice o s log

/-- Create a voice definition, then attach the two resources. -/
def initVoice (o : InitOracle) (s : Pico) (log : List Call) : InitResult :=
  let log := log ++ [Call.pico_createVoiceDefinition s.m_PicoSystem m_VoiceName]
  if o.createVoiceDefinition ≠ 0 then
    initFail o s log (lit "Cannot create voice definition") o.createVoiceDefinition
  else
    initTaVoice o s log

/-- Load the signal generation resource file, then go on with the voice.
`m_VoiceParts.at` throws when the stored voice is not a key of the table. -/
def initSgResource (o : InitOracle) (s : Pico) (log : List Call) : InitResult :=
  match m_VoiceParts.lookup s.m_VoiceLang with
  | none => { outcome := InitOutcome.threw, session := s, calls := log }
  | some part =>
    let fileName := s.m_ResourcePath ++ s.m_VoiceLang ++ lit "_" ++ part ++ lit "_sg.bin"
    let log := log ++ [Call.pico_loadResource s.m_PicoSystem fileName]
    let s := { s with m_PicoSgResource := o.loadSg.2 }
    if o.loadSg.1 ≠ 0 then
      initFail o s log (lit "Cannot load signal generation resource file") o.loadSg.1
    else
      initVoice o s log

/-- Load the text analysis resource file, then the signal generation one. -/
def initTaResource (o : InitOracle) (s : Pico) (log : List Call) : InitResult :=
  let fileName := s.m_ResourcePath ++ s.m_VoiceLang ++ lit "_ta.bin"
  let log := log ++ [Call.pico_loadResource s.m_PicoSystem fileName]
  let s := { s with m_PicoTaResource := o.loadTa.2 }
  if o.loadTa.1 ≠ 0 then
    initFail o s log (lit "Cannot load text analysis resource file") o.loadTa.1
  else
    initSgResource o s log

/-- The member function `Pico::InitializeSystem`; its steps after
`pico_initialize` are the definitions above, in source order `initTaResource`,
`initSgResource`, `initVoice`, `initTaVoice`, `initSgVoice`, `initEngine`,
`initAudio`. -/
def InitializeSystem (o : InitOracle) (s0 : Pico) : InitResult :=
  let s := { s0 with m_PicoMemArea := o.malloc }
  let log := [Call.malloc WRK_BUFFER_SIZE, Call.pico_init s.m_PicoMemArea]
  let s := { s with m_PicoSystem := o.pico_init.2 }
  if o.pico_init.1 ≠ 0 then
    initFail o s log (lit "Cannot initialize pico") o.pico_init.1
  else
    initTaResource o s log

/-! ## Processing -/

/-- Value of `PICO_STEP_IDLE` in the engine's header `picodefs.h` (included
by `svoxpico/picoapi.h`); the code only compares statuses with it. -/
def PICO_STEP_IDLE : Int := 200

/-- Value of `PICO_STEP_BUSY` in the engine's header `picodefs.h`. -/
def PICO_STEP_BUSY : Int := 201

/-- Conversion of an `int` value to `pico_Int16` (two's complement, 16 bits). -/
def wrap16 (x : Int) : Int := (x + 32768) % 65536 - 32768

/-- What `pico_putTextUtf8` answers: its status and `bytesSent`. -/
structure PutResult where
  ret : Int
  bytesSent : Int
  deriving DecidableEq, Repr

/-- What `pico_getData` answers: its status and the sample bytes it wrote to
`outBuffer`; `bytesRecv` is their number (a `bytesRecv` of zero or less
copies nothing and is an empty `samples`). -/
structure GetResult where
  status : Int
  samples : List Byte
  deriving DecidableEq, Repr

/-- The synthesis engine as the code sees it: a state of any type `E` and
the answers to the two streaming calls.  `pico_putTextUtf8` is given the
`computeLength` bytes at `picoPtr`. -/
structure Engine (E : Type) where
  pico_putTextUtf8 : E → List Byte → PutResult × E
  pico_getData : E → GetResult × E
  statusMessage : Int → StdString

/-- A call made by `Process`, or a copy into `pcmBuffer`. -/
inductive Event where
  | putText (offset len : Int) (ret bytesSent : Int)
  | getData (status : Int) (samples : List Byte)
  | memcpy (dst len : Nat)
  | ao_play (bytes : List Byte) (num_bytes : Nat)
  deriving DecidableEq, Repr

/-- The local variables of `Process` that live across loop iterations,
`picoPtr` as an offset into the submitted array, and the engine state. -/
structure Locals (E : Type) where
  engine : E
  pcmBuffer : List Byte
  bufferUsed : Nat
  textLength : Int
  computeLength : Int
  picoPtr : Int

/-- What `oss.str()` holds: the text inside the three prosody tags. -/
def prosodyString (s : Pico) (text : StdString) : StdString :=
  let oss : StdString := []
  let oss := oss ++ lit "<speed level=\"" ++ decimal s.m_Speed ++ lit "\">"
  let oss := oss ++ lit "<pitch level=\"" ++ decimal s.m_Pitch ++ lit "\">"
  let oss := oss ++ lit "<volume level=\"" ++ decimal s.m_Volume ++ lit "\">"
  let oss := oss ++ text
  let oss := oss ++ lit "</speed></pitch></volume>"
  oss

/-- The string `picoPtr` is set to point into: `localString` or `text`. -/
def submittedString (s : Pico) (text : StdString) : StdString :=
  if s.m_Speed ≠ 100 ∨ s.m_Pitch ≠ 100 ∨ s.m_Volume ≠ 100 then prosodyString s text
  else text

/-- The `textLength` bytes `Process` has to submit: the string and its terminator. -/
def submittedBytes (s : Pico) (text : StdString) : List Byte :=
  c_str (submittedString s text)

/-- The `len` bytes at offset `off` of the array `B`. -/
def chunkAt (B : List Byte) (off len : Int) : List Byte :=
  (B.drop off.toNat).take len.toNat

/-- Effect of `memcpy(pcmBuffer + dst, outBuffer, bytesRecv)` on the buffer. -/
def writeAt (pcm : List Byte) (dst : Nat) (samples : List Byte) : List Byte :=
  pcm.take dst ++ samples ++ pcm.drop (dst + samples.length)

/-- The block `if(bytesRecv > 0) ...` of the drain loop: the buffer and its
fill count afterwards, and the copies and plays made. -/
def accumulate (pcm : List Byte) (bufferUsed : Nat) (samples : List Byte) :
    List Byte × Nat × List Event :=
  if 0 < samples.length then
    if bufferUsed + samples.length ≤ PCM_BUFFER_SIZE then
      (writeAt pcm bufferUsed samples, bufferUsed + samples.length,
        [Event.memcpy bufferUsed samples.length])
    else
      (writeAt pcm 0 samples, 0 + samples.length,
        [Event.ao_play (pcm.take bufferUsed) bufferUsed, Event.memcpy 0 samples.length])
  else
    (pcm, bufferUsed, [])

/-- How the `do ... while (PICO_STEP_BUSY == status)` loop ends. -/
inductive DrainExit where
  | idle
  | error (status : Int)
  | fuel
  deriving DecidableEq, Repr

structure DrainRun (E : Type) where
  exit : DrainExit
  locals : Locals E
  events : List Event

/-- The locals after a successful `pico_getData`: the engine has moved on and
the samples have gone through the `if(bytesRecv > 0)` block. -/
def afterGet {E : Type} (l : Locals E) (r : GetResult × E) : Locals E :=
  { l with engine := r.2
           pcmBuffer := (accumulate l.pcmBuffer l.bufferUsed r.1.samples).1
           bufferUsed := (accumulate l.pcmBuffer l.bufferUsed r.1.samples).2.1 }

/-- The inner loop of `Process`, at most `fuel` iterations of it. -/
def drainLoop {E : Type} (eng : Engine E) : Nat → Locals E → DrainRun E
  | 0, l => { exit := DrainExit.fuel, locals := l, events := [] }
  | fuel + 1, l =>
    -- Retrieve the samples
    let r := eng.pico_getData l.engine
    let ev := Event.getData r.1.status r.1.samples
    if r.1.status ≠ PICO_STEP_BUSY ∧ r.1.status ≠ PICO_STEP_IDLE then
      { exit := DrainExit.error r.1.status, locals := { l with engine := r.2 }, events := [ev] }
    else
      -- Copy partial encoding
      let copies := (accumulate l.pcmBuffer l.bufferUsed r.1.samples).2.2
      if PICO_STEP_BUSY = r.1.status then
        let rest := drainLoop eng fuel (afterGet l r)
        { rest with events := ev :: copies ++ rest.events }
      else
        { exit := DrainExit.idle, locals := afterGet l r, events := ev :: copies }

/-- How a run of `Process` stands when the fuel is used up or it returns. -/
inductive Outcome where
  | returned (ok : Bool)
  | running
  deriving DecidableEq, Repr

structure Run (E : Type) where
  outcome : Outcome
  session : Pico
  locals : Locals E
  events : List Event

/-- The block `if(computeLength <= 0) ...` once `textLength <= 0` has not
ended the loop: the next piece of at most 32767 bytes is taken. -/
def takeChunk {E : Type} (l : Locals E) : Locals E :=
  if l.computeLength ≤ 0 then
    let ret := if l.textLength ≥ 32767 then 32767 else l.textLength
    { l with textLength := l.textLength - ret, computeLength := wrap16 ret }
  else l

/-- The two statements after a successful `pico_putTextUtf8`:
`computeLength -= bytesSent; picoPtr += bytesSent;`. -/
def afterPut {E : Type} (l : Locals E) (r : PutResult × E) : Locals E :=
  { l with engine := r.2
           computeLength := wrap16 (l.computeLength - r.1.bytesSent)
           picoPtr := l.picoPtr + r.1.bytesSent }

/-- The synthesis loop `while(1)` of `Process` over the submitted array `B`;
every iteration of either loop takes one unit of fuel. -/
def synthLoop {E : Type} (eng : Engine E) (B : List Byte) (s : Pico) :
    Nat → Locals E → Run E
  | 0, l => { outcome := Outcome.running, session := s, locals := l, events := [] }
  | fuel + 1, l =>
    if l.computeLength ≤ 0 ∧ l.textLength ≤ 0 then
      { outcome := Outcome.returned true, session := s, locals := l, events := [] }
    else
      let l1 := takeChunk l
      -- Feed the text into the engine
      let r := eng.pico_putTextUtf8 l1.engine (chunkAt B l1.picoPtr l1.computeLength)
      let put := Event.putText l1.picoPtr l1.computeLength r.1.ret r.1.bytesSent
      if r.1.ret ≠ 0 then
        { outcome := Outcome.returned false,
          session := SetPicoError eng.statusMessage s (lit "Cannot put text") r.1.ret,
          locals := { l1 with engine := r.2 }, events := [put] }
      else
        let d := drainLoop eng fuel (afterPut l1 r)
        match d.exit with
        | DrainExit.fuel =>
          { outcome := Outcome.running, session := s, locals := d.locals,
            events := put :: d.events }
        | DrainExit.error status =>
          { outcome := Outcome.returned false,
            session := SetPicoError eng.statusMessage s (lit "Cannot get data") status,
            locals := d.locals, events := put :: d.events }
        | DrainExit.idle =>
          -- Play end of buffer
          let play := Event.ao_play (d.locals.pcmBuffer.take d.locals.bufferUsed)
            d.locals.bufferUsed
          let rest := synthLoop eng B s fuel d.locals
          { rest with events := put :: d.events ++ play :: rest.events }

/-- The answer of `pico_putTextUtf8` in the iteration of the synthesis loop
that starts with locals `l`. -/
def putAnswer {E : Type} (eng : Engine E) (B : List Byte) (l : Locals E) : PutResult × E :=
  eng.pico_putTextUtf8 (takeChunk l).engine
    (chunkAt B (takeChunk l).picoPtr (takeChunk l).computeLength)

/-- The event that call leaves in the trace. -/
def putEvent {E : Type} (eng : Engine E) (B : List Byte) (l : Locals E) : Event :=
  Event.putText (takeChunk l).picoPtr (takeChunk l).computeLength
    (putAnswer eng B l).1.ret (putAnswer eng B l).1.bytesSent

/-- The drain loop of the iteration that starts with locals `l`. -/
def drainOf {E : Type} (eng : Engine E) (B : List Byte) (fuel : Nat) (l : Locals E) :
    DrainRun E :=
  drainLoop eng fuel (afterPut (takeChunk l) (putAnswer eng B l))

/-- The `ao_play` after the drain loop: the first `bufferUsed` bytes of the buffer. -/
def finalPlay {E : Type} (l : Locals E) : Event :=
  Event.ao_play (l.pcmBuffer.take l.bufferUsed) l.bufferUsed

/-- The local variables of `Process` when the synthesis loop is entered;
the uninitialized `pcmBuffer` is taken to hold zeros. -/
def initialLocals {E : Type} (s : Pico) (e0 : E) (text : StdString) : Locals E :=
  { engine := e0
    pcmBuffer := List.replicate PCM_BUFFER_SIZE 0
    bufferUsed := 0
    textLength := (submittedString s text).length + 1
    computeLength := 0
    picoPtr := 0 }

/-- The member function `Pico::Process`, run for at most `fuel` loop
iterations from engine state `e0`. -/
def Process {E : Type} (eng : Engine E) (fuel : Nat) (s : Pico) (e0 : E)
    (text : StdString) : Run E :=
  synthLoop eng (submittedBytes s text) s fuel (initialLocals s e0 text)

/-- The sample blocks drained from the engine, in order. -/
def drained : List Event → List (List Byte)
  | [] => []
  | Event.getData _ samples :: rest => samples :: drained rest
  | _ :: rest => drained rest

/-- The byte blocks passed to `ao_play`, in call order. -/
def played : List Event → List (List Byte)
  | [] => []
  | Event.ao_play bytes _ :: rest => bytes :: played rest
  | _ :: rest => played rest

/-- One `pico_putTextUtf8` call: where its buffer starts, the length given
and the count it reported as consumed. -/
structure Submit where
  offset : Int
  len : Int
  bytesSent : Int
  deriving DecidableEq, Repr

/-- The `pico_putTextUtf8` calls of a run, in order. -/
def submits : List Event → List Submit
  | [] => []
  | Event.putText off len _ sent :: rest => ⟨off, len, sent⟩ :: submits rest
  | _ :: rest => submits rest

/-- Every call's buffer starts where the consumed counts of the earlier calls
end, the first at `start`. -/
def offsetsChain : Int → List Submit → Prop
  | _, [] => True
  | start, c :: rest => c.offset = start ∧ offsetsChain (start + c.bytesSent) rest

/-- The buffer has its declared size and the fill count does not exceed it. -/
def Locals.bufferOK {E : Type} (l : Locals E) : Prop :=
  l.pcmBuffer.length = PCM_BUFFER_SIZE ∧ l.bufferUsed ≤ PCM_BUFFER_SIZE

/-- A copy lies inside `pcmBuffer`, and a play is given a length of at most
the buffer size together with that many bytes. -/
def Event.inBounds : Event → Prop
  | Event.memcpy dst len => dst + len ≤ PCM_BUFFER_SIZE
  | Event.ao_play bytes num_bytes => num_bytes ≤ PCM_BUFFER_SIZE ∧ bytes.length = num_bytes
  | _ => True

instance : DecidablePred Event.inBounds
  | Event.memcpy dst len => inferInstanceAs (Decidable (dst + len ≤ PCM_BUFFER_SIZE))
  | Event.ao_play bytes num_bytes =>
    inferInstanceAs (Decidable (num_bytes ≤ PCM_BUFFER_SIZE ∧ bytes.length = num_bytes))
  | Event.putText _ _ _ _ => isTrue trivial
  | Event.getData _ _ => isTrue trivial

/-- A drain call reports at most `k` bytes. -/
def Event.drainsAtMost (k : Nat) : Event → Prop
  | Event.getData _ samples => samples.length ≤ k
  | _ => True

instance (k : Nat) : DecidablePred (Event.drainsAtMost k)
  | Event.getData _ samples => inferInstanceAs (Decidable (samples.length ≤ k))
  | Event.memcpy _ _ => isTrue trivial
  | Event.ao_play _ _ => isTrue trivial
  | Event.putText _ _ _ _ => isTrue trivial

/-- Within `k` drain calls from engine state `e` one reports a status other
than busy. -/
def idleWithin {E : Type} (eng : Engine E) : Nat → E → Prop
  | 0, _ => False
  | k + 1, e =>
    (eng.pico_getData e).1.status ≠ PICO_STEP_BUSY ∨ idleWithin eng k (eng.pico_getData e).2

/-! ## Concrete inputs used by the closed statements below -/

/-- A session with neutral prosody: the fresh session after `SetSpeed(1.0)`
and `SetPitch(1.0)`. -/
def neutralSession : Pico := { Pico.new with m_Speed := 100, m_Pitch := 100 }

/-- The fresh session after `SetVoice("fr-FR")`, as `main` sets it up. -/
def frenchSession : Pico := (SetVoice Pico.new (lit "fr-FR")).2

/-- Every initialization call succeeds, except that `ao_open_live` returns null. -/
def deviceOpenFails : InitOracle where
  malloc := some 1
  pico_init := (0, some 2)
  loadTa := (0, some 3)
  loadSg := (0, some 4)
  createVoiceDefinition := 0
  getTaName := (0, lit "ta")
  addTa := 0
  getSgName := (0, lit "sg")
  addSg := 0
  newEngine := (0, some 5)
  default_driver_id := 0
  open_live := none
  statusMessage := fun _ => lit "message"

/-- Every initialization call succeeds up to `pico_newEngine`, which fails
with status -10 and leaves the engine handle null. -/
def engineCreateFails : InitOracle :=
  { deviceOpenFails with newEngine := (-10, none) }

/-- An engine that consumes all it is given and produces two sample bytes in
all: the first drain after the first submission reports busy with the bytes
1, 2, every other drain reports idle with none.  Its state counts the calls
made to it. -/
def twoSampleEngine : Engine Nat where
  pico_putTextUtf8 := fun e chunk => (⟨0, chunk.length⟩, e + 1)
  pico_getData := fun e =>
    (if e = 1 then ⟨PICO_STEP_BUSY, [1, 2]⟩ else ⟨PICO_STEP_IDLE, []⟩, e + 1)
  statusMessage := fun _ => []

/-- An engine that consumes all it is given and whose every drain reports
busy with no samples. -/
def busyEngine : Engine Unit where
  pico_putTextUtf8 := fun e chunk => (⟨0, chunk.length⟩, e)
  pico_getData := fun e => (⟨PICO_STEP_BUSY, []⟩, e)
  statusMessage := fun _ => []

/-- An engine that consumes one byte a call, and after each submission
answers two busy drains and an idle one, each with a full block of 256
bytes.  Its state counts the drain calls. -/
def blockEngine : Engine Nat where
  pico_putTextUtf8 := fun e _ => (⟨0, 1⟩, e)
  pico_getData := fun e =>
    (⟨if e % 3 = 2 then PICO_STEP_IDLE else PICO_STEP_BUSY,
      List.replicate 256 (UInt8.ofNat e)⟩, e + 1)
  statusMessage := fun _ => []

/-- A text of 32767 bytes, one more than fits a single submission once the
terminator is added. -/
def longText : StdString := List.replicate 32767 97

end PicoVoice

namespace PicoVoice

/-! ## String literals and decimal output -/

theorem lit_examples :
    lit "/" = [47] ∧ lit "\\" = [92] ∧ decimal 88 = [56, 56] ∧
      decimal (-105) = lit "-105" ∧ decimal 100 = lit "100" := by decide

/-! ## SetVoice -/

theorem lookup_supported (code : StdString)
    (h : code ∈ [lit "de-DE", lit "en-GB", lit "en-US", lit "es-ES", lit "fr-FR", lit "it-IT"]) :
    ∃ part, m_VoiceParts.lookup code = some part := by
  simp only [List.mem_cons, List.mem_singleton, List.not_mem_nil, or_false] at h
  have key : ∀ c : StdString, (m_VoiceParts.lookup c).isSome = true →
      ∃ part, m_VoiceParts.lookup c = some part := fun c hc => Option.isSome_iff_exists.mp hc
  rcases h with h | h | h | h | h | h <;> subst h <;> exact key _ (by decide)

theorem lookup_unsupported (code : StdString)
    (h : code ∉ [lit "de-DE", lit "en-GB", lit "en-US", lit "es-ES", lit "fr-FR", lit "it-IT"]) :
    m_VoiceParts.lookup code = none := by
  simp only [List.mem_cons, List.mem_singleton, List.not_mem_nil, or_false, not_or] at h
  obtain ⟨h1, h2, h3, h4, h5, h6⟩ := h
  simp only [m_VoiceParts, List.lookup, beq_false_of_ne h1, beq_false_of_ne h2,
    beq_false_of_ne h3, beq_false_of_ne h4, beq_false_of_ne h5, beq_false_of_ne h6]

/-- C4: for a supported code `SetVoice` returns true, stores the code and
touches nothing else (the last error included); for every other string it
returns false, keeps the stored voice and every other field, and sets the
last error to "Unknown voice language".  The differently cased `FR-fr` is
such a string. -/
theorem SetVoice_spec (s : Pico) (code : StdString) :
    (code ∈ [lit "de-DE", lit "en-GB", lit "en-US", lit "es-ES", lit "fr-FR", lit "it-IT"] →
        SetVoice s code = (true, { s with m_VoiceLang := code })) ∧
    (code ∉ [lit "de-DE", lit "en-GB", lit "en-US", lit "es-ES", lit "fr-FR", lit "it-IT"] →
        SetVoice s code = (false, { s with m_LastError := lit "Unknown voice language" })) ∧
    lit "FR-fr" ∉ [lit "de-DE", lit "en-GB", lit "en-US", lit "es-ES", lit "fr-FR", lit "it-IT"] := by
  refine ⟨fun h => ?_, fun h => ?_, by decide⟩
  · obtain ⟨part, hp⟩ := lookup_supported code h
    simp [SetVoice, hp]
  · simp [SetVoice, lookup_unsupported code h, SetPicoError]

/-! ## Cleanup -/

theorem Cleanup_noHandles (s : Pico) : (Cleanup s).1.noHandles := by
  unfold Cleanup Pico.noHandles
  by_cases h1 : s.m_PicoEngine = none <;> by_cases h2 : s.m_PicoSgResource = none <;>
    by_cases h3 : s.m_PicoTaResource = none <;> by_cases h4 : s.m_PicoSystem = none <;>
    by_cases h5 : s.m_PicoMemArea = none <;> by_cases h6 : s.m_PcmDevice = none <;>
    simp [h1, h2, h3, h4, h5, h6]

theorem Cleanup_of_noHandles (s : Pico) (h : s.noHandles) : Cleanup s = (s, []) := by
  obtain ⟨h1, h2, h3, h4, h5, h6⟩ := h
  simp [Cleanup, h1, h2, h3, h4, h5, h6]

/-- C6: `Cleanup` run a second time changes nothing and makes no call at
all; on the freshly constructed session it changes nothing and makes no call;
and after any `Cleanup` every handle is absent. -/
theorem Cleanup_idempotent (s : Pico) :
    Cleanup (Cleanup s).1 = ((Cleanup s).1, []) ∧
    Cleanup Pico.new = (Pico.new, []) ∧
    (Cleanup s).1.noHandles := by
  refine ⟨Cleanup_of_noHandles _ (Cleanup_noHandles s), by decide, Cleanup_noHandles s⟩

/-! ## The prosody wrapper -/

theorem submittedBytes_neutral (s : Pico) (t : StdString)
    (h : s.m_Speed = 100 ∧ s.m_Pitch = 100 ∧ s.m_Volume = 100) :
    submittedBytes s t = t ++ [0] := by
  obtain ⟨h1, h2, h3⟩ := h
  simp [submittedBytes, submittedString, c_str, h1, h2, h3]

theorem submittedBytes_wrapped (s : Pico) (t : StdString)
    (h : ¬ (s.m_Speed = 100 ∧ s.m_Pitch = 100 ∧ s.m_Volume = 100)) :
    submittedBytes s t =
      lit "<speed level=\"" ++ decimal s.m_Speed ++ lit "\">" ++
      (lit "<pitch level=\"" ++ decimal s.m_Pitch ++ lit "\">") ++
      (lit "<volume level=\"" ++ decimal s.m_Volume ++ lit "\">") ++
      t ++ lit "</speed></pitch></volume>" ++ [0] := by
  have h' : s.m_Speed ≠ 100 ∨ s.m_Pitch ≠ 100 ∨ s.m_Volume ≠ 100 := by
    by_contra hc
    push_neg at hc
    exact h hc
  simp [submittedBytes, submittedString, c_str, prosodyString, h']

/-- C3: with speed, pitch and volume all at 100 the bytes `Process` submits
are the text and the terminator; otherwise they are the three opening tags in
the order speed, pitch, volume with the stored values in decimal, the text,
the closing tags `</speed></pitch></volume>` and the terminator.  Only the
stored values decide. -/
theorem submittedBytes_spec (s : Pico) (t : StdString) :
    (s.m_Speed = 100 ∧ s.m_Pitch = 100 ∧ s.m_Volume = 100 →
      submittedBytes s t = t ++ [0]) ∧
    (¬ (s.m_Speed = 100 ∧ s.m_Pitch = 100 ∧ s.m_Volume = 100) →
      submittedBytes s t =
        lit "<speed level=\"" ++ decimal s.m_Speed ++ lit "\">" ++
        (lit "<pitch level=\"" ++ decimal s.m_Pitch ++ lit "\">") ++
        (lit "<volume level=\"" ++ decimal s.m_Volume ++ lit "\">") ++
        t ++ lit "</speed></pitch></volume>" ++ [0]) :=
  ⟨submittedBytes_neutral s t, submittedBytes_wrapped s t⟩

/-- The wrapper on the values `main` sets first (speed 105, pitch 55). -/
theorem submittedBytes_example :
    submittedBytes { Pico.new with m_Speed := 105, m_Pitch := 55 } (lit "hi") =
      lit "<speed level=\"105\"><pitch level=\"55\"><volume level=\"100\">hi</speed></pitch></volume>"
        ++ [0] := by decide

/-- C8, as stated, fails: the constructor stores speed 88 and pitch 105, and
the fresh session wraps the text "Hello" in markup. -/
theorem fresh_session_not_neutral :
    ¬ (Pico.new.m_Speed = 100 ∧ Pico.new.m_Pitch = 100 ∧ Pico.new.m_Volume = 100) ∧
      submittedBytes Pico.new (lit "Hello") ≠ lit "Hello" ++ [0] := by decide

/-- C8, amended: in a freshly constructed session the speed, pitch and volume
percentages are 88, 105 and 100, so `Process` on a fresh session submits its
text inside the prosody markup for those values. -/
theorem fresh_session_prosody :
    Pico.new.m_Speed = 88 ∧ Pico.new.m_Pitch = 105 ∧ Pico.new.m_Volume = 100 ∧
    ∀ text : StdString, submittedBytes Pico.new text =
      lit "<speed level=\"88\"><pitch level=\"105\"><volume level=\"100\">" ++ text ++
        lit "</speed></pitch></volume>" ++ [0] := by
  refine ⟨rfl, rfl, rfl, fun text => ?_⟩
  have h := submittedBytes_wrapped Pico.new text (by decide)
  rw [h]
  have e : lit "<speed level=\"" ++ decimal Pico.new.m_Speed ++ lit "\">" ++
        (lit "<pitch level=\"" ++ decimal Pico.new.m_Pitch ++ lit "\">") ++
        (lit "<volume level=\"" ++ decimal Pico.new.m_Volume ++ lit "\">") =
      lit "<speed level=\"88\"><pitch level=\"105\"><volume level=\"100\">" := by decide
  rw [e]

/-! ## SetPath -/

/-- C9 at the empty path: `SetPath("")` evaluates `back()` on an empty
string, so no stored path is defined. -/
theorem SetPath_empty (s : Pico) : SetPath s [] = none := rfl

/-- On a non-empty path `SetPath` stores the path itself when it ends in `/`
or `\`, and the path followed by `/` otherwise; no other field changes. -/
theorem SetPath_nonempty (s : Pico) (p : StdString) (h : p ≠ []) :
    SetPath s p = some { s with m_ResourcePath :=
      if (p.getLast? = some 47) ∨ (p.getLast? = some 92) then p else p ++ [47] } := by
  unfold SetPath
  cases hl : p.getLast? with
  | none => exact absurd (List.getLast?_eq_none_iff.mp hl) h
  | some b =>
    by_cases h1 : b = 47
    · simp [hl, h1]
    · by_cases h2 : b = 92
      · simp [hl, h2]
      · simp [hl, h1, h2]

theorem SetPath_nonempty_witness :
    SetPath Pico.new (lit "./lang") = some { Pico.new with m_ResourcePath := lit "./lang/" } :=
  (SetPath_nonempty Pico.new (lit "./lang") (by decide)).trans (by decide)

/-! ## The prosody setters -/

theorem Flt.toRat_of_exp_nonneg (x : Flt) (h : 0 ≤ x.exp) :
    x.toRat = ((x.mant * 2 ^ x.exp.toNat : Int) : ℚ) := by
  unfold Flt.toRat
  obtain ⟨n, hn⟩ := Int.eq_ofNat_of_zero_le h
  rw [hn]
  simp [zpow_natCast]

theorem Flt.toRat_of_exp_neg (x : Flt) (h : ¬ 0 ≤ x.exp) :
    x.toRat = (x.mant : ℚ) / ((2 ^ (-x.exp).toNat : Nat) : ℚ) := by
  unfold Flt.toRat
  obtain ⟨n, hn⟩ := Int.exists_eq_neg_ofNat (show x.exp ≤ 0 by omega)
  rw [hn]
  simp [zpow_neg, zpow_natCast, div_eq_mul_inv]

/-- Discarding the fractional part of a non-negative `float` gives its floor. -/
theorem Flt.trunc_eq_floor (x : Flt) (h : 0 ≤ x.toRat) : x.trunc = ⌊x.toRat⌋ := by
  unfold Flt.trunc
  by_cases he : 0 ≤ x.exp
  · rw [if_pos he, Flt.toRat_of_exp_nonneg x he, Int.floor_intCast]
  · rw [if_neg he, Flt.toRat_of_exp_neg x he, Rat.floor_intCast_div_natCast]
    have hd : (0 : ℚ) < ((2 ^ (-x.exp).toNat : Nat) : ℚ) := by positivity
    have hm : 0 ≤ x.mant := by
      rw [Flt.toRat_of_exp_neg x he] at h
      have := (div_nonneg_iff.mp h)
      rcases this with ⟨h1, _⟩ | ⟨_, h2⟩
      · exact_mod_cast h1
      · exact absurd h2 (not_le.mpr hd)
    rw [Int.tdiv_eq_ediv hm (by positivity)]
    push_cast
    rfl

/-- Discarding the fractional part of a non-positive `float` gives its ceiling. -/
theorem Flt.trunc_eq_ceil (x : Flt) (h : x.toRat ≤ 0) : x.trunc = ⌈x.toRat⌉ := by
  unfold Flt.trunc
  by_cases he : 0 ≤ x.exp
  · rw [if_pos he, Flt.toRat_of_exp_nonneg x he, Int.ceil_intCast]
  · rw [if_neg he, Flt.toRat_of_exp_neg x he]
    have hd : (0 : ℚ) < ((2 ^ (-x.exp).toNat : Nat) : ℚ) := by positivity
    have hm : x.mant ≤ 0 := by
      rw [Flt.toRat_of_exp_neg x he] at h
      rcases div_nonpos_iff.mp h with ⟨_, h2⟩ | ⟨h1, _⟩
      · exact absurd h2 (not_le.mpr hd)
      · exact_mod_cast h1
    have e1 : x.mant = -(-x.mant) := by ring
    have e2 : ((x.mant : ℚ) / ((2 ^ (-x.exp).toNat : Nat) : ℚ)) =
        -((((-x.mant : Int)) : ℚ) / ((2 ^ (-x.exp).toNat : Nat) : ℚ)) := by
      push_cast; ring
    rw [e2, Int.ceil_neg, Rat.floor_intCast_div_natCast]
    conv_lhs => rw [e1]
    rw [Int.neg_tdiv, Int.tdiv_eq_ediv (by omega) (by positivity)]
    push_cast
    rfl

/-- C7, as stated, fails: the `float` 0.8671875 (111/128) times 100 is
86.71875 exactly; `SetSpeed` stores 86 while the nearest integer is 87.  On
the claim's own example, the `float` nearest to 0.555, it stores 55. -/
theorem SetSpeed_not_rounding :
    (SetSpeed Pico.new ⟨111, -7⟩).map (fun s => s.m_Speed) = some 86 ∧
    (Flt.mul ⟨111, -7⟩ (Flt.ofInt 100)).toRat = (111 / 128 : ℚ) * 100 ∧
    specRound ((111 / 128 : ℚ) * 100) = 87 ∧
    (SetSpeed Pico.new (Flt.ofDecimalBelowOne 555 3)).map (fun s => s.m_Speed) = some 55 := by
  refine ⟨by decide, ?_, ?_, by decide⟩
  · have e : Flt.mul ⟨111, -7⟩ (Flt.ofInt 100) = ⟨11100, -7⟩ := by decide
    rw [e]
    norm_num [Flt.toRat]
  · unfold specRound
    rw [round_eq, Int.floor_eq_iff]
    norm_num

/-- C7, amended: when the truncated product is an `int` value, each setter
stores the `float` product of the ratio and 100 with its fractional part
discarded (the floor of a non-negative product, the ceiling of a
non-positive one), unclamped, and changes no other field. -/
theorem setters_truncate (s : Pico) (val : Flt)
    (h : -2147483648 ≤ (Flt.mul val (Flt.ofInt 100)).trunc ∧
      (Flt.mul val (Flt.ofInt 100)).trunc ≤ 2147483647) :
    SetSpeed s val = some { s with m_Speed := (Flt.mul val (Flt.ofInt 100)).trunc } ∧
    SetPitch s val = some { s with m_Pitch := (Flt.mul val (Flt.ofInt 100)).trunc } ∧
    SetVolume s val = some { s with m_Volume := (Flt.mul val (Flt.ofInt 100)).trunc } ∧
    (0 ≤ (Flt.mul val (Flt.ofInt 100)).toRat →
      (Flt.mul val (Flt.ofInt 100)).trunc = ⌊(Flt.mul val (Flt.ofInt 100)).toRat⌋) ∧
    ((Flt.mul val (Flt.ofInt 100)).toRat ≤ 0 →
      (Flt.mul val (Flt.ofInt 100)).trunc = ⌈(Flt.mul val (Flt.ofInt 100)).toRat⌉) := by
  refine ⟨?_, ?_, ?_, Flt.trunc_eq_floor _, Flt.trunc_eq_ceil _⟩
  · simp [SetSpeed, Flt.toInt, h]
  · simp [SetPitch, Flt.toInt, h]
  · simp [SetVolume, Flt.toInt, h]

/-- The setters at the ratios 0.8671875, 1.0 and 1000.0: 86, 100 and 100000. -/
theorem setters_truncate_witness :
    SetSpeed Pico.new ⟨111, -7⟩ = some { Pico.new with m_Speed := 86 } ∧
    SetPitch Pico.new ⟨1, 0⟩ = some { Pico.new with m_Pitch := 100 } ∧
    SetVolume Pico.new ⟨1000, 0⟩ = some { Pico.new with m_Volume := 100000 } :=
  ⟨(setters_truncate Pico.new ⟨111, -7⟩ (by decide)).1.trans (by decide),
   (setters_truncate Pico.new ⟨1, 0⟩ (by decide)).2.1.trans (by decide),
   (setters_truncate Pico.new ⟨1000, 0⟩ (by decide)).2.2.1.trans (by decide)⟩

/-! ## Initialization -/

theorem Cleanup_lastError (s : Pico) : (Cleanup s).1.m_LastError = s.m_LastError := by
  unfold Cleanup
  by_cases h1 : s.m_PicoEngine = none <;> by_cases h2 : s.m_PicoSgResource = none <;>
    by_cases h3 : s.m_PicoTaResource = none <;> by_cases h4 : s.m_PicoSystem = none <;>
    by_cases h5 : s.m_PicoMemArea = none <;> by_cases h6 : s.m_PcmDevice = none <;>
    simp [h1, h2, h3, h4, h5, h6]

theorem SetPicoError_nonempty (msg : Int → StdString) (s : Pico) (text : StdString)
    (errorNo : Int) (ht : text ≠ []) : (SetPicoError msg s text errorNo).m_LastError ≠ [] := by
  unfold SetPicoError
  split_ifs
  · simp [ht]
  · exact ht

theorem initFail_spec (o : InitOracle) (s : Pico) (calls : List Call) (text : StdString)
    (ret : Int) (ht : text ≠ []) :
    (initFail o s calls text ret).session.noHandles ∧
      (initFail o s calls text ret).session.m_LastError ≠ [] := by
  refine ⟨Cleanup_noHandles _, ?_⟩
  show (Cleanup (SetPicoError o.statusMessage s text ret)).1.m_LastError ≠ []
  rw [Cleanup_lastError]
  exact SetPicoError_nonempty _ _ _ _ ht

theorem initFail_clean (o : InitOracle) (s : Pico) (calls : List Call) (text : StdString)
    (ret : Int) (ht : text ≠ []) :
    (initFail o s calls text ret).outcome = InitOutcome.returned false →
      (initFail o s calls text ret).session.noHandles ∧
        (initFail o s calls text ret).session.m_LastError ≠ [] :=
  fun _ => initFail_spec o s calls text ret ht

theorem initAudio_failure (o : InitOracle) (s : Pico) (log : List Call) :
    (initAudio o s log).outcome = InitOutcome.returned false →
      (initAudio o s log).session.noHandles ∧ (initAudio o s log).session.m_LastError ≠ [] := by
  unfold initAudio
  simp only []
  split_ifs
  · exact initFail_clean _ _ _ _ _ (by decide)
  · intro h; exact absurd h (by simp)

theorem initEngine_failure (o : InitOracle) (s : Pico) (log : List Call) :
    (initEngine o s log).outcome = InitOutcome.returned false →
      (initEngine o s log).session.noHandles ∧ (initEngine o s log).session.m_LastError ≠ [] := by
  unfold initEngine
  simp only []
  split_ifs
  · exact initFail_clean _ _ _ _ _ (by decide)
  · exact initAudio_failure _ _ _

theorem initSgVoice_failure (o : InitOracle) (s : Pico) (log : List Call) :
    (initSgVoice o s log).outcome = InitOutcome.returned false →
      (initSgVoice o s log).session.noHandles ∧
        (initSgVoice o s log).session.m_LastError ≠ [] := by
  unfold initSgVoice
  simp only []
  split_ifs
  · exact initFail_clean _ _ _ _ _ (by decide)
  · exact initFail_clean _ _ _ _ _ (by decide)
  · exact initEngine_failure _ _ _

theorem initTaVoice_failure (o : InitOracle) (s : Pico) (log : List Call) :
    (initTaVoice o s log).outcome = InitOutcome.returned false →
      (initTaVoice o s log).session.noHandles ∧
        (initTaVoice o s log).session.m_LastError ≠ [] := by
  unfold initTaVoice
  simp only []
  split_ifs
  · exact initFail_clean _ _ _ _ _ (by decide)
  · exact initFail_clean _ _ _ _ _ (by decide)
  · exact initSgVoice_failure _ _ _

theorem initVoice_failure (o : InitOracle) (s : Pico) (log : List Call) :
    (initVoice o s log).outcome = InitOutcome.returned false →
      (initVoice o s log).session.noHandles ∧ (initVoice o s log).session.m_LastError ≠ [] := by
  unfold initVoice
  simp only []
  split_ifs
  · exact initFail_clean _ _ _ _ _ (by decide)
  · exact initTaVoice_failure _ _ _

theorem initSgResource_failure (o : InitOracle) (s : Pico) (log : List Call) :
    (initSgResource o s log).outcome = InitOutcome.returned false →
      (initSgResource o s log).session.noHandles ∧
        (initSgResource o s log).session.m_LastError ≠ [] := by
  unfold initSgResource
  split
  · intro h; exact absurd h (by simp)
  · simp only []
    split_ifs
    · exact initFail_clean _ _ _ _ _ (by decide)
    · exact initVoice_failure _ _ _

theorem initTaResource_failure (o : InitOracle) (s : Pico) (log : List Call) :
    (initTaResource o s log).outcome = InitOutcome.returned false →
      (initTaResource o s log).session.noHandles ∧
        (initTaResource o s log).session.m_LastError ≠ [] := by
  unfold initTaResource
  simp only []
  split_ifs
  · exact initFail_clean _ _ _ _ _ (by decide)
  · exact initSgResource_failure _ _ _

/-- Whatever the allocator, the engine and libao answer, and whatever the
session holds before, a run of `InitializeSystem` that returns false leaves
every handle absent and a non-empty last error. -/
theorem InitializeSystem_failure (o : InitOracle) (s0 : Pico)
    (h : (InitializeSystem o s0).outcome = InitOutcome.returned false) :
    (InitializeSystem o s0).session.noHandles ∧
      (InitializeSystem o s0).session.m_LastError ≠ [] := by
  revert h
  unfold InitializeSystem
  simp only []
  split_ifs
  · exact initFail_clean _ _ _ _ _ (by decide)
  · exact initTaResource_failure _ _ _

/-- C5 at a failing device open and at a failing engine creation: in both
runs `InitializeSystem` returns false with every handle absent and a
non-empty last error, but when `ao_open_live` fails the audio library has
been started by `ao_initialize` and `ao_shutdown` is never called, and when
`pico_newEngine` fails the voice definition has been created and
`pico_releaseVoiceDefinition` is never called. -/
theorem InitializeSystem_leaks :
    ((InitializeSystem deviceOpenFails frenchSession).outcome = InitOutcome.returned false ∧
      (InitializeSystem deviceOpenFails frenchSession).session.noHandles ∧
      (InitializeSystem deviceOpenFails frenchSession).session.m_LastError =
        lit "Error opening audio device" ∧
      Call.ao_init ∈ (InitializeSystem deviceOpenFails frenchSession).calls ∧
      Call.ao_shutdown ∉ (InitializeSystem deviceOpenFails frenchSession).calls) ∧
    ((InitializeSystem engineCreateFails frenchSession).outcome = InitOutcome.returned false ∧
      (InitializeSystem engineCreateFails frenchSession).session.noHandles ∧
      (InitializeSystem engineCreateFails frenchSession).session.m_LastError ≠ [] ∧
      Call.pico_createVoiceDefinition (some 2) m_VoiceName ∈
        (InitializeSystem engineCreateFails frenchSession).calls ∧
      Call.pico_releaseVoiceDefinition (some 2) m_VoiceName ∉
        (InitializeSystem engineCreateFails frenchSession).calls) := by
  decide

end PicoVoice


namespace PicoVoice

/-! ## The output buffer of `Process` -/

theorem writeAt_length (pcm : List Byte) (dst : Nat) (samples : List Byte)
    (h : dst + samples.length ≤ pcm.length) : (writeAt pcm dst samples).length = pcm.length := by
  simp only [writeAt, List.length_append, List.length_take, List.length_drop]
  omega

theorem accumulate_bounds (pcm : List Byte) (used : Nat) (samples : List Byte)
    (hl : pcm.length = PCM_BUFFER_SIZE) (hu : used ≤ PCM_BUFFER_SIZE)
    (hs : samples.length ≤ OUT_BUFFER_SIZE) :
    (accumulate pcm used samples).1.length = PCM_BUFFER_SIZE ∧
    (accumulate pcm used samples).2.1 ≤ PCM_BUFFER_SIZE ∧
    ∀ ev ∈ (accumulate pcm used samples).2.2, ev.inBounds := by
  simp only [PCM_BUFFER_SIZE, OUT_BUFFER_SIZE] at *
  unfold accumulate
  by_cases h0 : 0 < samples.length
  · by_cases h1 : used + samples.length ≤ PCM_BUFFER_SIZE
    · simp only [PCM_BUFFER_SIZE] at h1
      rw [if_pos h0, if_pos (by simpa [PCM_BUFFER_SIZE] using h1)]
      refine ⟨?_, h1, ?_⟩
      · rw [writeAt_length _ _ _ (by omega), hl]
      · intro ev hev
        simp only [List.mem_singleton] at hev
        subst hev
        simpa [Event.inBounds, PCM_BUFFER_SIZE] using h1
    · simp only [PCM_BUFFER_SIZE] at h1
      rw [if_pos h0, if_neg (by simpa [PCM_BUFFER_SIZE] using h1)]
      refine ⟨?_, (by show 0 + samples.length ≤ 512; omega), ?_⟩
      · rw [writeAt_length _ _ _ (by omega), hl]
      · intro ev hev
        simp only [List.mem_cons, List.mem_singleton, List.not_mem_nil, or_false] at hev
        rcases hev with hev | hev <;> subst hev
        · simp only [Event.inBounds, PCM_BUFFER_SIZE, List.length_take]
          omega
        · simp only [Event.inBounds, PCM_BUFFER_SIZE]
          omega
  · rw [if_neg h0]
    exact ⟨hl, hu, fun ev hev => absurd hev (List.not_mem_nil ev)⟩

theorem drainLoop_succ {E : Type} (eng : Engine E) (fuel : Nat) (l : Locals E) :
    drainLoop eng (fuel + 1) l =
      if (eng.pico_getData l.engine).1.status ≠ PICO_STEP_BUSY ∧
          (eng.pico_getData l.engine).1.status ≠ PICO_STEP_IDLE then
        { exit := DrainExit.error (eng.pico_getData l.engine).1.status,
          locals := { l with engine := (eng.pico_getData l.engine).2 },
          events := [Event.getData (eng.pico_getData l.engine).1.status
            (eng.pico_getData l.engine).1.samples] }
      else if PICO_STEP_BUSY = (eng.pico_getData l.engine).1.status then
        { exit := (drainLoop eng fuel (afterGet l (eng.pico_getData l.engine))).exit,
          locals := (drainLoop eng fuel (afterGet l (eng.pico_getData l.engine))).locals,
          events := Event.getData (eng.pico_getData l.engine).1.status
              (eng.pico_getData l.engine).1.samples ::
            (accumulate l.pcmBuffer l.bufferUsed (eng.pico_getData l.engine).1.samples).2.2 ++
            (drainLoop eng fuel (afterGet l (eng.pico_getData l.engine))).events }
      else
        { exit := DrainExit.idle,
          locals := afterGet l (eng.pico_getData l.engine),
          events := Event.getData (eng.pico_getData l.engine).1.status
              (eng.pico_getData l.engine).1.samples ::
            (accumulate l.pcmBuffer l.bufferUsed (eng.pico_getData l.engine).1.samples).2.2 } := by
  rfl

theorem drainLoop_bounds {E : Type} (eng : Engine E) (fuel : Nat) :
    ∀ l : Locals E, l.bufferOK →
      (∀ ev ∈ (drainLoop eng fuel l).events, ev.drainsAtMost OUT_BUFFER_SIZE) →
      (drainLoop eng fuel l).locals.bufferOK ∧
        ∀ ev ∈ (drainLoop eng fuel l).events, ev.inBounds := by
  induction fuel with
  | zero =>
    intro l hl _
    exact ⟨hl, fun ev hev => absurd hev (List.not_mem_nil ev)⟩
  | succ n ih =>
    intro l hl hd
    rw [drainLoop_succ] at hd ⊢
    split_ifs at hd ⊢ with h1 h2
    · refine ⟨hl, ?_⟩
      intro ev hev
      simp only [List.mem_singleton] at hev
      subst hev
      trivial
    · have hs : (eng.pico_getData l.engine).1.samples.length ≤ OUT_BUFFER_SIZE :=
        hd _ (List.mem_cons_self _ _)
      obtain ⟨a1, a2, a3⟩ := accumulate_bounds l.pcmBuffer l.bufferUsed _ hl.1 hl.2 hs
      have hrest := ih (afterGet l (eng.pico_getData l.engine)) ⟨a1, a2⟩
        (fun ev hev => hd ev (by
          simp only [List.mem_cons, List.mem_append]
          exact Or.inr hev))
      refine ⟨hrest.1, ?_⟩
      intro ev hev
      simp only [List.mem_cons, List.mem_append] at hev
      rcases hev with (hev | hev) | hev
      · subst hev; trivial
      · exact a3 ev hev
      · exact hrest.2 ev hev
    · have hs : (eng.pico_getData l.engine).1.samples.length ≤ OUT_BUFFER_SIZE :=
        hd _ (List.mem_cons_self _ _)
      obtain ⟨a1, a2, a3⟩ := accumulate_bounds l.pcmBuffer l.bufferUsed _ hl.1 hl.2 hs
      refine ⟨⟨a1, a2⟩, ?_⟩
      intro ev hev
      simp only [List.mem_cons] at hev
      rcases hev with hev | hev
      · subst hev; trivial
      · exact a3 ev hev

theorem synthLoop_succ {E : Type} (eng : Engine E) (B : List Byte) (s : Pico) (fuel : Nat)
    (l : Locals E) :
    synthLoop eng B s (fuel + 1) l =
      if l.computeLength ≤ 0 ∧ l.textLength ≤ 0 then
        { outcome := Outcome.returned true, session := s, locals := l, events := [] }
      else if (putAnswer eng B l).1.ret ≠ 0 then
        { outcome := Outcome.returned false,
          session := SetPicoError eng.statusMessage s (lit "Cannot put text")
            (putAnswer eng B l).1.ret,
          locals := { takeChunk l with engine := (putAnswer eng B l).2 },
          events := [putEvent eng B l] }
      else
        match (drainOf eng B fuel l).exit with
        | DrainExit.fuel =>
          { outcome := Outcome.running, session := s, locals := (drainOf eng B fuel l).locals,
            events := putEvent eng B l :: (drainOf eng B fuel l).events }
        | DrainExit.error status =>
          { outcome := Outcome.returned false,
            session := SetPicoError eng.statusMessage s (lit "Cannot get data") status,
            locals := (drainOf eng B fuel l).locals,
            events := putEvent eng B l :: (drainOf eng B fuel l).events }
        | DrainExit.idle =>
          { outcome := (synthLoop eng B s fuel (drainOf eng B fuel l).locals).outcome,
            session := (synthLoop eng B s fuel (drainOf eng B fuel l).locals).session,
            locals := (synthLoop eng B s fuel (drainOf eng B fuel l).locals).locals,
            events := putEvent eng B l :: (drainOf eng B fuel l).events ++
              finalPlay (drainOf eng B fuel l).locals ::
                (synthLoop eng B s fuel (drainOf eng B fuel l).locals).events } := by
  rfl

theorem synthLoop_done {E : Type} (eng : Engine E) (B : List Byte) (s : Pico) (fuel : Nat)
    (l : Locals E) (h : l.computeLength ≤ 0 ∧ l.textLength ≤ 0) :
    synthLoop eng B s (fuel + 1) l =
      { outcome := Outcome.returned true, session := s, locals := l, events := [] } := by
  rw [synthLoop_succ, if_pos h]

theorem synthLoop_putFail {E : Type} (eng : Engine E) (B : List Byte) (s : Pico) (fuel : Nat)
    (l : Locals E) (h : ¬ (l.computeLength ≤ 0 ∧ l.textLength ≤ 0))
    (hr : (putAnswer eng B l).1.ret ≠ 0) :
    synthLoop eng B s (fuel + 1) l =
      { outcome := Outcome.returned false,
        session := SetPicoError eng.statusMessage s (lit "Cannot put text")
          (putAnswer eng B l).1.ret,
        locals := { takeChunk l with engine := (putAnswer eng B l).2 },
        events := [putEvent eng B l] } := by
  rw [synthLoop_succ, if_neg h, if_pos hr]

theorem synthLoop_drainFuel {E : Type} (eng : Engine E) (B : List Byte) (s : Pico) (fuel : Nat)
    (l : Locals E) (h : ¬ (l.computeLength ≤ 0 ∧ l.textLength ≤ 0))
    (hr : (putAnswer eng B l).1.ret = 0) (hx : (drainOf eng B fuel l).exit = DrainExit.fuel) :
    synthLoop eng B s (fuel + 1) l =
      { outcome := Outcome.running, session := s, locals := (drainOf eng B fuel l).locals,
        events := putEvent eng B l :: (drainOf eng B fuel l).events } := by
  rw [synthLoop_succ, if_neg h, if_neg (not_not.mpr hr)]
  simp only [hx]

theorem synthLoop_drainError {E : Type} (eng : Engine E) (B : List Byte) (s : Pico)
    (fuel : Nat) (l : Locals E) (h : ¬ (l.computeLength ≤ 0 ∧ l.textLength ≤ 0))
    (hr : (putAnswer eng B l).1.ret = 0) (status : Int)
    (hx : (drainOf eng B fuel l).exit = DrainExit.error status) :
    synthLoop eng B s (fuel + 1) l =
      { outcome := Outcome.returned false,
        session := SetPicoError eng.statusMessage s (lit "Cannot get data") status,
        locals := (drainOf eng B fuel l).locals,
        events := putEvent eng B l :: (drainOf eng B fuel l).events } := by
  rw [synthLoop_succ, if_neg h, if_neg (not_not.mpr hr)]
  simp only [hx]

theorem synthLoop_idle {E : Type} (eng : Engine E) (B : List Byte) (s : Pico) (fuel : Nat)
    (l : Locals E) (h : ¬ (l.computeLength ≤ 0 ∧ l.textLength ≤ 0))
    (hr : (putAnswer eng B l).1.ret = 0) (hx : (drainOf eng B fuel l).exit = DrainExit.idle) :
    synthLoop eng B s (fuel + 1) l =
      { outcome := (synthLoop eng B s fuel (drainOf eng B fuel l).locals).outcome,
        session := (synthLoop eng B s fuel (drainOf eng B fuel l).locals).session,
        locals := (synthLoop eng B s fuel (drainOf eng B fuel l).locals).locals,
        events := putEvent eng B l :: (drainOf eng B fuel l).events ++
          finalPlay (drainOf eng B fuel l).locals ::
            (synthLoop eng B s fuel (drainOf eng B fuel l).locals).events } := by
  rw [synthLoop_succ, if_neg h, if_neg (not_not.mpr hr)]
  simp only [hx]

/-- The five ways one iteration of the synthesis loop can go. -/
theorem synthLoop_cases {E : Type} (eng : Engine E) (B : List Byte) (fuel : Nat)
    (l : Locals E) :
    (l.computeLength ≤ 0 ∧ l.textLength ≤ 0) ∨
    (¬ (l.computeLength ≤ 0 ∧ l.textLength ≤ 0) ∧ (putAnswer eng B l).1.ret ≠ 0) ∨
    (¬ (l.computeLength ≤ 0 ∧ l.textLength ≤ 0) ∧ (putAnswer eng B l).1.ret = 0 ∧
      (drainOf eng B fuel l).exit = DrainExit.fuel) ∨
    (¬ (l.computeLength ≤ 0 ∧ l.textLength ≤ 0) ∧ (putAnswer eng B l).1.ret = 0 ∧
      ∃ status, (drainOf eng B fuel l).exit = DrainExit.error status) ∨
    (¬ (l.computeLength ≤ 0 ∧ l.textLength ≤ 0) ∧ (putAnswer eng B l).1.ret = 0 ∧
      (drainOf eng B fuel l).exit = DrainExit.idle) := by
  by_cases h : l.computeLength ≤ 0 ∧ l.textLength ≤ 0
  · exact Or.inl h
  · by_cases hr : (putAnswer eng B l).1.ret = 0
    · cases hx : (drainOf eng B fuel l).exit with
      | idle => exact Or.inr (Or.inr (Or.inr (Or.inr ⟨h, hr, rfl⟩)))
      | error status => exact Or.inr (Or.inr (Or.inr (Or.inl ⟨h, hr, status, rfl⟩)))
      | fuel => exact Or.inr (Or.inr (Or.inl ⟨h, hr, rfl⟩))
    · exact Or.inr (Or.inl ⟨h, hr⟩)

theorem takeChunk_buffer {E : Type} (l : Locals E) :
    (takeChunk l).pcmBuffer = l.pcmBuffer ∧ (takeChunk l).bufferUsed = l.bufferUsed ∧
      (takeChunk l).engine = l.engine := by
  unfold takeChunk
  split_ifs <;> exact ⟨rfl, rfl, rfl⟩

theorem synthLoop_bounds {E : Type} (eng : Engine E) (B : List Byte) (s : Pico) (fuel : Nat) :
    ∀ l : Locals E, l.bufferOK →
      (∀ ev ∈ (synthLoop eng B s fuel l).events, ev.drainsAtMost OUT_BUFFER_SIZE) →
      (synthLoop eng B s fuel l).locals.bufferOK ∧
        ∀ ev ∈ (synthLoop eng B s fuel l).events, ev.inBounds := by
  induction fuel with
  | zero =>
    intro l hl _
    exact ⟨hl, fun ev hev => absurd hev (List.not_mem_nil ev)⟩
  | succ n ih =>
    intro l hl hd
    have hl1 : (afterPut (takeChunk l) (putAnswer eng B l)).bufferOK := by
      obtain ⟨t1, t2, _⟩ := takeChunk_buffer l
      exact ⟨by simpa [afterPut, t1] using hl.1, by simpa [afterPut, t2] using hl.2⟩
    rcases synthLoop_cases eng B n l with h | ⟨h, hr⟩ | ⟨h, hr, hx⟩ | ⟨h, hr, st, hx⟩ | ⟨h, hr, hx⟩
    · rw [synthLoop_done eng B s n l h]
      exact ⟨hl, fun ev hev => absurd hev (List.not_mem_nil ev)⟩
    · rw [synthLoop_putFail eng B s n l h hr]
      obtain ⟨t1, t2, _⟩ := takeChunk_buffer l
      refine ⟨⟨by simpa [t1] using hl.1, by simpa [t2] using hl.2⟩, ?_⟩
      intro ev hev
      simp only [List.mem_singleton] at hev
      subst hev
      trivial
    · rw [synthLoop_drainFuel eng B s n l h hr hx] at hd ⊢
      have hdr := drainLoop_bounds eng n _ hl1 (fun ev hev => hd ev (List.mem_cons_of_mem _ hev))
      refine ⟨hdr.1, ?_⟩
      intro ev hev
      simp only [List.mem_cons] at hev
      rcases hev with hev | hev
      · subst hev; trivial
      · exact hdr.2 ev hev
    · rw [synthLoop_drainError eng B s n l h hr st hx] at hd ⊢
      have hdr := drainLoop_bounds eng n _ hl1 (fun ev hev => hd ev (List.mem_cons_of_mem _ hev))
      refine ⟨hdr.1, ?_⟩
      intro ev hev
      simp only [List.mem_cons] at hev
      rcases hev with hev | hev
      · subst hev; trivial
      · exact hdr.2 ev hev
    · rw [synthLoop_idle eng B s n l h hr hx] at hd ⊢
      have hdr := drainLoop_bounds eng n _ hl1 (fun ev hev => hd ev (by
        simp only [List.mem_cons, List.mem_append]
        exact Or.inl (Or.inr hev)))
      have hrest := ih (drainOf eng B n l).locals hdr.1 (fun ev hev => hd ev (by
        simp only [List.mem_cons, List.mem_append]
        exact Or.inr (Or.inr hev)))
      refine ⟨hrest.1, ?_⟩
      intro ev hev
      simp only [List.mem_cons, List.mem_append] at hev
      rcases hev with (hev | hev) | hev | hev
      · subst hev; trivial
      · exact hdr.2 ev hev
      · subst hev
        have hb : (drainOf eng B n l).locals.bufferOK := hdr.1
        simp only [Locals.bufferOK, PCM_BUFFER_SIZE] at hb
        simp only [finalPlay, Event.inBounds, PCM_BUFFER_SIZE, List.length_take]
        omega
      · exact hrest.2 ev hev

/-! ## Termination of `Process` and the submission calls -/

theorem wrap16_of_range (x : Int) (h1 : -32768 ≤ x) (h2 : x ≤ 32767) : wrap16 x = x := by
  unfold wrap16
  omega

theorem chunkAt_length (B : List Byte) (off len : Int) :
    (chunkAt B off len).length = min len.toNat (B.length - off.toNat) := by
  simp [chunkAt, List.length_take, List.length_drop]

theorem submits_append (xs ys : List Event) : submits (xs ++ ys) = submits xs ++ submits ys := by
  induction xs with
  | nil => rfl
  | cons x xs ih =>
    cases x <;> simp [submits, ih]

/-- More fuel does not change a drain loop that has ended. -/
theorem drainLoop_mono {E : Type} (eng : Engine E) (n : Nat) :
    ∀ (l : Locals E), (drainLoop eng n l).exit ≠ DrainExit.fuel →
      ∀ m, drainLoop eng (n + m) l = drainLoop eng n l := by
  induction n with
  | zero => intro l h; exact absurd rfl h
  | succ n ih =>
    intro l h m
    have e : n + 1 + m = (n + m) + 1 := by omega
    rw [e, drainLoop_succ, drainLoop_succ]
    rw [drainLoop_succ] at h
    split_ifs at h ⊢ with h1 h2
    · rfl
    · rw [ih _ h m]
    · rfl

/-- The drain loop leaves the text variables alone and submits nothing. -/
theorem drainLoop_frame {E : Type} (eng : Engine E) (n : Nat) :
    ∀ (l : Locals E), (drainLoop eng n l).locals.textLength = l.textLength ∧
      (drainLoop eng n l).locals.computeLength = l.computeLength ∧
      (drainLoop eng n l).locals.picoPtr = l.picoPtr ∧
      submits (drainLoop eng n l).events = [] := by
  induction n with
  | zero => intro l; exact ⟨rfl, rfl, rfl, rfl⟩
  | succ n ih =>
    intro l
    rw [drainLoop_succ]
    split_ifs with h1 h2
    · exact ⟨rfl, rfl, rfl, rfl⟩
    · obtain ⟨i1, i2, i3, i4⟩ := ih (afterGet l (eng.pico_getData l.engine))
      refine ⟨i1, i2, i3, ?_⟩
      show submits (_ :: _ ++ _) = []
      rw [submits_append, i4]
      unfold accumulate
      split_ifs <;> rfl
    · refine ⟨rfl, rfl, rfl, ?_⟩
      show submits (_ :: _) = []
      unfold accumulate
      split_ifs <;> rfl

/-- When every drain reports busy or idle and one within `k` calls is not
busy, the drain loop ends idle on `k` units of fuel. -/
theorem drainLoop_idle {E : Type} (eng : Engine E)
    (hget : ∀ e, (eng.pico_getData e).1.status = PICO_STEP_BUSY ∨
      (eng.pico_getData e).1.status = PICO_STEP_IDLE) (k : Nat) :
    ∀ (l : Locals E), idleWithin eng k l.engine →
      (drainLoop eng k l).exit = DrainExit.idle := by
  induction k with
  | zero => intro l h; exact absurd h (by simp [idleWithin])
  | succ k ih =>
    intro l h
    rw [drainLoop_succ]
    have hg := hget l.engine
    split_ifs with h1 h2
    · rcases hg with hg | hg
      · exact absurd hg h1.1
      · exact absurd hg h1.2
    · simp only [idleWithin] at h
      rcases h with h | h
      · exact absurd h2.symm h
      · exact ih (afterGet l (eng.pico_getData l.engine)) h
    · rfl

/-- More fuel does not change a synthesis loop that has returned. -/
theorem synthLoop_mono {E : Type} (eng : Engine E) (B : List Byte) (s : Pico) (n : Nat) :
    ∀ (l : Locals E), (synthLoop eng B s n l).outcome ≠ Outcome.running →
      ∀ m, synthLoop eng B s (n + m) l = synthLoop eng B s n l := by
  induction n with
  | zero => intro l h; exact absurd rfl h
  | succ n ih =>
    intro l h m
    have e : n + 1 + m = (n + m) + 1 := by omega
    rw [e]
    rcases synthLoop_cases eng B n l with c | ⟨c, hr⟩ | ⟨c, hr, hx⟩ | ⟨c, hr, st, hx⟩ | ⟨c, hr, hx⟩
    · rw [synthLoop_done eng B s n l c, synthLoop_done eng B s (n + m) l c]
    · rw [synthLoop_putFail eng B s n l c hr, synthLoop_putFail eng B s (n + m) l c hr]
    · rw [synthLoop_drainFuel eng B s n l c hr hx] at h
      exact absurd rfl h
    · have hne : (drainOf eng B n l).exit ≠ DrainExit.fuel := by rw [hx]; simp
      have hd : drainOf eng B (n + m) l = drainOf eng B n l := drainLoop_mono eng n _ hne m
      rw [synthLoop_drainError eng B s n l c hr st hx,
        synthLoop_drainError eng B s (n + m) l c hr st (by rw [hd]; exact hx), hd]
    · have hne : (drainOf eng B n l).exit ≠ DrainExit.fuel := by rw [hx]; simp
      have hd : drainOf eng B (n + m) l = drainOf eng B n l := drainLoop_mono eng n _ hne m
      rw [synthLoop_idle eng B s n l c hr hx] at h
      have hrest := ih (drainOf eng B n l).locals h m
      rw [synthLoop_idle eng B s n l c hr hx,
        synthLoop_idle eng B s (n + m) l c hr (by rw [hd]; exact hx), hd, hrest]

theorem takeChunk_spec {E : Type} (l : Locals E)
    (h : ¬ (l.computeLength ≤ 0 ∧ l.textLength ≤ 0))
    (h1 : 0 ≤ l.textLength) (h2 : 0 ≤ l.computeLength) (h3 : l.computeLength ≤ 32767) :
    1 ≤ (takeChunk l).computeLength ∧ (takeChunk l).computeLength ≤ 32767 ∧
      0 ≤ (takeChunk l).textLength ∧ (takeChunk l).picoPtr = l.picoPtr ∧
      (takeChunk l).computeLength + (takeChunk l).textLength =
        l.computeLength + l.textLength := by
  unfold takeChunk
  by_cases hc : l.computeLength ≤ 0
  · have ht : 0 < l.textLength := by
      by_contra hn
      exact h ⟨hc, by omega⟩
    rw [if_pos hc]
    by_cases hb : l.textLength ≥ 32767
    · simp only [if_pos hb]
      rw [wrap16_of_range 32767 (by omega) (by omega)]
      refine ⟨by omega, by omega, by omega, trivial, by omega⟩
    · simp only [if_neg hb]
      rw [wrap16_of_range l.textLength (by omega) (by omega)]
      refine ⟨by omega, by omega, by omega, trivial, by omega⟩
  · rw [if_neg hc]
    refine ⟨by omega, h3, h1, rfl, rfl⟩

theorem submits_iteration {E : Type} (eng : Engine E) (B : List Byte) (l dl : Locals E)
    (devs rest : List Event) (hd : submits devs = []) :
    submits (putEvent eng B l :: devs ++ finalPlay dl :: rest) =
      ⟨(takeChunk l).picoPtr, (takeChunk l).computeLength, (putAnswer eng B l).1.bytesSent⟩ ::
        submits rest := by
  rw [submits_append]
  simp [submits, putEvent, finalPlay, hd]

theorem synthLoop_terminates {E : Type} (eng : Engine E) (B : List Byte) (s : Pico)
    (hput : ∀ e chunk, chunk ≠ [] →
      (eng.pico_putTextUtf8 e chunk).1.ret = 0 ∧
      1 ≤ (eng.pico_putTextUtf8 e chunk).1.bytesSent ∧
      (eng.pico_putTextUtf8 e chunk).1.bytesSent ≤ chunk.length)
    (hget : ∀ e, (eng.pico_getData e).1.status = PICO_STEP_BUSY ∨
      (eng.pico_getData e).1.status = PICO_STEP_IDLE)
    (hidle : ∀ e, ∃ k, idleWithin eng k e) (N : Nat) :
    ∀ l : Locals E, (l.computeLength + l.textLength).toNat ≤ N →
      0 ≤ l.textLength → 0 ≤ l.computeLength → l.computeLength ≤ 32767 → 0 ≤ l.picoPtr →
      l.picoPtr + l.computeLength + l.textLength = B.length →
      ∃ fuel, (synthLoop eng B s fuel l).outcome = Outcome.returned true ∧
        (∀ c ∈ submits (synthLoop eng B s fuel l).events, 1 ≤ c.len ∧ c.len ≤ 32767) ∧
        offsetsChain l.picoPtr (submits (synthLoop eng B s fuel l).events) ∧
        ((submits (synthLoop eng B s fuel l).events).map Submit.bytesSent).sum =
          l.computeLength + l.textLength := by
  have done : ∀ l : Locals E, (l.computeLength ≤ 0 ∧ l.textLength ≤ 0) →
      0 ≤ l.textLength → 0 ≤ l.computeLength →
      ∃ fuel, (synthLoop eng B s fuel l).outcome = Outcome.returned true ∧
        (∀ c ∈ submits (synthLoop eng B s fuel l).events, 1 ≤ c.len ∧ c.len ≤ 32767) ∧
        offsetsChain l.picoPtr (submits (synthLoop eng B s fuel l).events) ∧
        ((submits (synthLoop eng B s fuel l).events).map Submit.bytesSent).sum =
          l.computeLength + l.textLength := by
    intro l c h1 h2
    refine ⟨1, ?_⟩
    rw [synthLoop_done eng B s 0 l c]
    refine ⟨rfl, ?_, trivial, ?_⟩
    · intro x hx
      exact absurd hx (List.not_mem_nil x)
    · show (0 : Int) = _
      omega
  induction N with
  | zero =>
    intro l hN h1 h2 _ _ _
    exact done l ⟨by omega, by omega⟩ h1 h2
  | succ n ih =>
    intro l hN h1 h2 h3 h4 h5
    by_cases c : l.computeLength ≤ 0 ∧ l.textLength ≤ 0
    · exact done l c h1 h2
    · obtain ⟨t1, t2, t3, t4, t5⟩ := takeChunk_spec l c h1 h2 h3
      have hlen : (chunkAt B (takeChunk l).picoPtr (takeChunk l).computeLength).length =
          (takeChunk l).computeLength.toNat := by
        rw [chunkAt_length, t4]
        omega
      have hne : chunkAt B (takeChunk l).picoPtr (takeChunk l).computeLength ≠ [] := by
        intro he
        rw [he] at hlen
        simp only [List.length_nil] at hlen
        omega
      obtain ⟨r0, r1, r2⟩ := hput (takeChunk l).engine _ hne
      have p0 : (putAnswer eng B l).1.ret = 0 := r0
      have p1 : 1 ≤ (putAnswer eng B l).1.bytesSent := r1
      have p2 : (putAnswer eng B l).1.bytesSent ≤ (takeChunk l).computeLength := by
        have : (putAnswer eng B l).1.bytesSent ≤
            ((chunkAt B (takeChunk l).picoPtr (takeChunk l).computeLength).length : Int) := r2
        rw [hlen] at this
        omega
      obtain ⟨k, hk⟩ := hidle (afterPut (takeChunk l) (putAnswer eng B l)).engine
      have hx : (drainOf eng B k l).exit = DrainExit.idle :=
        drainLoop_idle eng hget k _ hk
      obtain ⟨f1, f2, f3, f4⟩ :=
        drainLoop_frame eng k (afterPut (takeChunk l) (putAnswer eng B l))
      have g1 : (drainOf eng B k l).locals.textLength = (takeChunk l).textLength := f1
      have g2 : (drainOf eng B k l).locals.computeLength =
          (takeChunk l).computeLength - (putAnswer eng B l).1.bytesSent := by
        have : (drainOf eng B k l).locals.computeLength =
            wrap16 ((takeChunk l).computeLength - (putAnswer eng B l).1.bytesSent) := f2
        rw [this, wrap16_of_range _ (by omega) (by omega)]
      have g3 : (drainOf eng B k l).locals.picoPtr =
          l.picoPtr + (putAnswer eng B l).1.bytesSent := by
        have : (drainOf eng B k l).locals.picoPtr =
            (takeChunk l).picoPtr + (putAnswer eng B l).1.bytesSent := f3
        rw [this, t4]
      have g4 : submits (drainOf eng B k l).events = [] := f4
      obtain ⟨f, o1, o2, o3, o4⟩ := ih (drainOf eng B k l).locals
        (by rw [g1, g2]; omega) (by rw [g1]; exact t3) (by rw [g2]; omega)
        (by rw [g2]; omega) (by rw [g3]; omega) (by rw [g1, g2, g3]; omega)
      have hne2 : (drainOf eng B k l).exit ≠ DrainExit.fuel := by rw [hx]; simp
      have hd : drainOf eng B (k + f) l = drainOf eng B k l := drainLoop_mono eng k _ hne2 f
      have hs : synthLoop eng B s (k + f) (drainOf eng B k l).locals =
          synthLoop eng B s f (drainOf eng B k l).locals := by
        rw [Nat.add_comm]
        exact synthLoop_mono eng B s f _ (by rw [o1]; simp) k
      refine ⟨k + f + 1, ?_⟩
      rw [synthLoop_idle eng B s (k + f) l c p0 (by rw [hd]; exact hx), hd, hs]
      simp only []
      rw [submits_iteration eng B l _ _ _ g4]
      refine ⟨o1, ?_, ?_, ?_⟩
      · intro x hxm
        simp only [List.mem_cons] at hxm
        rcases hxm with hxm | hxm
        · subst hxm
          exact ⟨t1, t2⟩
        · exact o2 x hxm
      · refine ⟨t4, ?_⟩
        rw [g3] at o3
        exact o3
      · simp only [List.map_cons, List.sum_cons]
        rw [o4, g1, g2]
        omega

/-- C2, amended: when every submit call succeeds and reports a consumed
count between 1 and the length it was given, every drain call reports busy or
idle, and from every engine state some drain call within finitely many
reports idle, then `Process` returns true on enough fuel (and on any more),
each submit call is given a length between 1 and 32767, each call's buffer
starts at the sum of the consumed counts of the earlier calls, and the
consumed counts sum to the length of the submitted bytes. -/
theorem Process_submits_all {E : Type} (eng : Engine E) (s : Pico) (e0 : E) (text : StdString)
    (hput : ∀ e chunk, chunk ≠ [] →
      (eng.pico_putTextUtf8 e chunk).1.ret = 0 ∧
      1 ≤ (eng.pico_putTextUtf8 e chunk).1.bytesSent ∧
      (eng.pico_putTextUtf8 e chunk).1.bytesSent ≤ chunk.length)
    (hget : ∀ e, (eng.pico_getData e).1.status = PICO_STEP_BUSY ∨
      (eng.pico_getData e).1.status = PICO_STEP_IDLE)
    (hidle : ∀ e, ∃ k, idleWithin eng k e) :
    ∃ fuel, ∀ more,
      (Process eng (fuel + more) s e0 text).outcome = Outcome.returned true ∧
      (∀ c ∈ submits (Process eng (fuel + more) s e0 text).events, 1 ≤ c.len ∧ c.len ≤ 32767) ∧
      offsetsChain 0 (submits (Process eng (fuel + more) s e0 text).events) ∧
      ((submits (Process eng (fuel + more) s e0 text).events).map Submit.bytesSent).sum =
        (submittedBytes s text).length := by
  have hlen : ((submittedBytes s text).length : Int) = (submittedString s text).length + 1 := by
    simp [submittedBytes, c_str]
  obtain ⟨fuel, o1, o2, o3, o4⟩ := synthLoop_terminates eng (submittedBytes s text) s hput hget
    hidle _ (initialLocals s e0 text) (le_refl _) (by simp only [initialLocals]; omega)
    (le_refl _) (by simp [initialLocals]) (le_refl _)
    (by simp only [initialLocals]; omega)
  refine ⟨fuel, fun more => ?_⟩
  have hm : Process eng (fuel + more) s e0 text = Process eng fuel s e0 text :=
    synthLoop_mono eng _ s fuel _ (by rw [o1]; simp) more
  rw [hm]
  refine ⟨o1, o2, o3, ?_⟩
  have : ((submits (Process eng fuel s e0 text).events).map Submit.bytesSent).sum =
      (initialLocals s e0 text).computeLength + (initialLocals s e0 text).textLength := o4
  rw [this]
  simp only [initialLocals]
  omega

theorem busyEngine_drain_runs (n : Nat) :
    ∀ l : Locals Unit, (drainLoop busyEngine n l).exit = DrainExit.fuel := by
  induction n with
  | zero => intro l; rfl
  | succ n ih =>
    intro l
    rw [drainLoop_succ]
    have hb : (busyEngine.pico_getData l.engine).1.status = PICO_STEP_BUSY := rfl
    rw [if_neg (by rw [hb]; simp), if_pos hb.symm]
    exact ih _

theorem busyEngine_never_returns (B : List Byte) (s : Pico) (n : Nat) (l : Locals Unit)
    (h : 0 < l.textLength) : (synthLoop busyEngine B s n l).outcome = Outcome.running := by
  cases n with
  | zero => rfl
  | succ n =>
    rw [synthLoop_drainFuel busyEngine B s n l (by omega) rfl (busyEngine_drain_runs n _)]

/-- C2, as stated, fails: the engine whose every drain reports busy consumes
everything it is given (so every submit call succeeds with a consumed count
between 1 and the given length) and every drain call succeeds, yet on the
text "Hello" `Process` never returns, whatever the fuel. -/
theorem Process_busy_engine_diverges :
    (∀ e chunk, chunk ≠ [] →
      (busyEngine.pico_putTextUtf8 e chunk).1.ret = 0 ∧
      1 ≤ (busyEngine.pico_putTextUtf8 e chunk).1.bytesSent ∧
      (busyEngine.pico_putTextUtf8 e chunk).1.bytesSent ≤ chunk.length) ∧
    (∀ e, (busyEngine.pico_getData e).1.status = PICO_STEP_BUSY ∨
      (busyEngine.pico_getData e).1.status = PICO_STEP_IDLE) ∧
    ¬ ∃ fuel ok, (Process busyEngine fuel neutralSession () (lit "Hello")).outcome =
      Outcome.returned ok := by
  refine ⟨?_, fun _ => Or.inl rfl, ?_⟩
  · intro e chunk hne
    refine ⟨rfl, ?_, le_refl _⟩
    show (1 : Int) ≤ (chunk.length : Int)
    have : 0 < chunk.length := List.length_pos.mpr hne
    omega
  · rintro ⟨fuel, ok, hf⟩
    have hr := busyEngine_never_returns (submittedBytes neutralSession (lit "Hello"))
      neutralSession fuel (initialLocals neutralSession () (lit "Hello")) (by decide)
    have : (Process busyEngine fuel neutralSession () (lit "Hello")).outcome =
        Outcome.running := hr
    rw [this] at hf
    exact absurd hf (by simp)

/-- The engine `twoSampleEngine` meets the hypotheses of
`Process_submits_all`: on the 32767-byte text `Process` returns true with
consumed counts summing to the length of the submitted bytes. -/
theorem Process_submits_all_witness :
    ∃ fuel, ∀ more,
      (Process twoSampleEngine (fuel + more) neutralSession 0 longText).outcome =
        Outcome.returned true ∧
      (∀ c ∈ submits (Process twoSampleEngine (fuel + more) neutralSession 0 longText).events,
        1 ≤ c.len ∧ c.len ≤ 32767) ∧
      offsetsChain 0 (submits (Process twoSampleEngine (fuel + more) neutralSession 0
        longText).events) ∧
      ((submits (Process twoSampleEngine (fuel + more) neutralSession 0
        longText).events).map Submit.bytesSent).sum =
        (submittedBytes neutralSession longText).length :=
  Process_submits_all twoSampleEngine neutralSession 0 longText
    (fun _ chunk hne => ⟨rfl, by
      show (1 : Int) ≤ (chunk.length : Int)
      have : 0 < chunk.length := List.length_pos.mpr hne
      omega, le_refl _⟩)
    (fun e => by
      by_cases h : e = 1
      · exact Or.inl (by simp [twoSampleEngine, h])
      · exact Or.inr (by simp [twoSampleEngine, h]))
    (fun e => by
      refine ⟨2, ?_⟩
      by_cases h : e = 1
      · exact Or.inr (Or.inl (by simp [twoSampleEngine, h, PICO_STEP_IDLE, PICO_STEP_BUSY]))
      · exact Or.inl (by simp [twoSampleEngine, h, PICO_STEP_IDLE, PICO_STEP_BUSY]))

/-! ## The buffer bounds of `Process` -/

/-- C10: in a run of `Process` (cut at any amount of fuel) whose drain calls
each report at most 256 bytes, every copy into `pcmBuffer` lies within its 512
bytes, every `ao_play` is given a length of at most 512 and that many bytes,
the fill count is at most 512 where the run stands, and a drained block that
does not fit on top of the current fill is preceded by a flush of the buffer
and copied to offset 0, while a block that fits is copied at the fill count
with no flush. -/
theorem Process_buffer_bounds {E : Type} (eng : Engine E) (fuel : Nat) (s : Pico) (e0 : E)
    (text : StdString)
    (h : ∀ ev ∈ (Process eng fuel s e0 text).events, ev.drainsAtMost OUT_BUFFER_SIZE) :
    (∀ ev ∈ (Process eng fuel s e0 text).events, ev.inBounds) ∧
    (Process eng fuel s e0 text).locals.bufferUsed ≤ PCM_BUFFER_SIZE ∧
    (Process eng fuel s e0 text).locals.pcmBuffer.length = PCM_BUFFER_SIZE ∧
    (∀ (pcm : List Byte) (used : Nat) (samples : List Byte), 0 < samples.length →
      PCM_BUFFER_SIZE < used + samples.length →
      accumulate pcm used samples =
        (writeAt pcm 0 samples, samples.length,
          [Event.ao_play (pcm.take used) used, Event.memcpy 0 samples.length])) ∧
    (∀ (pcm : List Byte) (used : Nat) (samples : List Byte), 0 < samples.length →
      used + samples.length ≤ PCM_BUFFER_SIZE →
      accumulate pcm used samples =
        (writeAt pcm used samples, used + samples.length,
          [Event.memcpy used samples.length])) := by
  have hb := synthLoop_bounds eng (submittedBytes s text) s fuel (initialLocals s e0 text)
    ⟨by simp [initialLocals], by simp [initialLocals]⟩ h
  refine ⟨hb.2, hb.1.2, hb.1.1, ?_, ?_⟩
  · intro pcm used samples h0 h1
    unfold accumulate
    rw [if_pos h0, if_neg (by omega)]
    simp
  · intro pcm used samples h0 h1
    unfold accumulate
    rw [if_pos h0, if_pos h1]

set_option maxRecDepth 100000 in
/-- The run of `Process` on the text "a" with the engine that drains three
blocks of 256 bytes a submission: the third block does not fit and is
preceded by a flush of 512 bytes. -/
theorem Process_buffer_bounds_witness :
    (∀ ev ∈ (Process blockEngine 20 neutralSession 0 (lit "a")).events,
      ev.drainsAtMost OUT_BUFFER_SIZE) ∧
    (∀ ev ∈ (Process blockEngine 20 neutralSession 0 (lit "a")).events, ev.inBounds) ∧
    (Process blockEngine 20 neutralSession 0 (lit "a")).locals.bufferUsed ≤ PCM_BUFFER_SIZE :=
  ⟨by decide,
   (Process_buffer_bounds blockEngine 20 neutralSession 0 (lit "a") (by decide)).1,
   (Process_buffer_bounds blockEngine 20 neutralSession 0 (lit "a") (by decide)).2.1⟩

/-! ## Bytes played against bytes drained -/

theorem played_append (xs ys : List Event) : played (xs ++ ys) = played xs ++ played ys := by
  induction xs with
  | nil => rfl
  | cons x xs ih => cases x <;> simp [played, ih]

theorem drained_append (xs ys : List Event) :
    drained (xs ++ ys) = drained xs ++ drained ys := by
  induction xs with
  | nil => rfl
  | cons x xs ih => cases x <;> simp [drained, ih]

theorem played_getData_cons (status : Int) (samples : List Byte) (xs : List Event) :
    played (Event.getData status samples :: xs) = played xs := rfl

theorem drained_getData_cons (status : Int) (samples : List Byte) (xs : List Event) :
    drained (Event.getData status samples :: xs) = samples :: drained xs := rfl

theorem take_writeAt (pcm : List Byte) (used : Nat) (samples : List Byte)
    (h : used ≤ pcm.length) :
    (writeAt pcm used samples).take (used + samples.length) = pcm.take used ++ samples := by
  unfold writeAt
  have hlen : (pcm.take used ++ samples).length = used + samples.length := by
    simp [List.length_take, Nat.min_eq_left h]
  rw [← hlen, List.take_left']
  rfl

/-- One pass through the `if(bytesRecv > 0)` block keeps every byte: what is
played, followed by what the buffer then holds, is what the buffer held
followed by the new samples; nothing is drained by the block itself. -/
theorem accumulate_plays (pcm : List Byte) (used : Nat) (samples : List Byte)
    (h : used ≤ pcm.length) :
    (played (accumulate pcm used samples).2.2).flatten ++
        (accumulate pcm used samples).1.take (accumulate pcm used samples).2.1 =
      pcm.take used ++ samples ∧
    drained (accumulate pcm used samples).2.2 = [] := by
  unfold accumulate
  by_cases h0 : 0 < samples.length
  · by_cases h1 : used + samples.length ≤ PCM_BUFFER_SIZE
    · rw [if_pos h0, if_pos h1]
      refine ⟨?_, rfl⟩
      show [] ++ (writeAt pcm used samples).take (used + samples.length) = _
      rw [take_writeAt pcm used samples h]
      rfl
    · rw [if_pos h0, if_neg h1]
      refine ⟨?_, rfl⟩
      show (pcm.take used ++ []) ++ (writeAt pcm 0 samples).take (0 + samples.length) = _
      rw [take_writeAt pcm 0 samples (Nat.zero_le _)]
      simp
  · rw [if_neg h0]
    have hs : samples = [] := List.length_eq_zero.mp (by omega)
    subst hs
    exact ⟨by simp [played], rfl⟩

/-- A drain loop that has not met an error keeps every byte: the bytes
played during the loop followed by those left in the buffer are the bytes
the buffer held before followed by the bytes drained. -/
theorem drainLoop_plays {E : Type} (eng : Engine E) (n : Nat) :
    ∀ l : Locals E, l.bufferOK →
      (∀ ev ∈ (drainLoop eng n l).events, ev.drainsAtMost OUT_BUFFER_SIZE) →
      (∀ status, (drainLoop eng n l).exit ≠ DrainExit.error status) →
      (played (drainLoop eng n l).events).flatten ++
          (drainLoop eng n l).locals.pcmBuffer.take (drainLoop eng n l).locals.bufferUsed =
        l.pcmBuffer.take l.bufferUsed ++ (drained (drainLoop eng n l).events).flatten := by
  induction n with
  | zero =>
    intro l _ _ _
    simp [drainLoop, played, drained]
  | succ n ih =>
    intro l hl hd hx
    rw [drainLoop_succ] at hd hx ⊢
    have hu : l.bufferUsed ≤ l.pcmBuffer.length := by
      rw [hl.1]; exact hl.2
    obtain ⟨a1, a2⟩ := accumulate_plays l.pcmBuffer l.bufferUsed
      (eng.pico_getData l.engine).1.samples hu
    split_ifs at hd hx ⊢ with h1 h2
    · exact absurd rfl (hx _)
    · have hs : (eng.pico_getData l.engine).1.samples.length ≤ OUT_BUFFER_SIZE :=
        hd _ (List.mem_cons_self _ _)
      obtain ⟨b1, b2, _⟩ := accumulate_bounds l.pcmBuffer l.bufferUsed _ hl.1 hl.2 hs
      have hrest := ih (afterGet l (eng.pico_getData l.engine)) ⟨b1, b2⟩
        (fun ev hev => hd ev (by
          simp only [List.mem_cons, List.mem_append]
          exact Or.inr hev)) hx
      have a1' : (played (accumulate l.pcmBuffer l.bufferUsed
            (eng.pico_getData l.engine).1.samples).2.2).flatten ++
          List.take (afterGet l (eng.pico_getData l.engine)).bufferUsed
            (afterGet l (eng.pico_getData l.engine)).pcmBuffer =
          l.pcmBuffer.take l.bufferUsed ++ (eng.pico_getData l.engine).1.samples := a1
      show (played (_ :: _ ++ _)).flatten ++ _ = _ ++ (drained (_ :: _ ++ _)).flatten
      rw [List.cons_append, played_getData_cons, drained_getData_cons, played_append,
        drained_append, a2, List.flatten_append, List.append_assoc, hrest,
        ← List.append_assoc, a1', List.nil_append, List.flatten_cons, List.append_assoc]
    · show (played (_ :: _)).flatten ++ _ = _ ++ (drained (_ :: _)).flatten
      rw [played_getData_cons, drained_getData_cons, a2, List.flatten_cons, List.flatten_nil,
        List.append_nil]
      exact a1

theorem synthLoop_no_submit {E : Type} (eng : Engine E) (B : List Byte) (s : Pico) (n : Nat)
    (l : Locals E) (hret : (synthLoop eng B s n l).outcome = Outcome.returned true)
    (hs : submits (synthLoop eng B s n l).events = []) :
    (synthLoop eng B s n l).events = [] := by
  cases n with
  | zero => rfl
  | succ n =>
    rcases synthLoop_cases eng B n l with c | ⟨c, hr⟩ | ⟨c, hr, hx⟩ | ⟨c, hr, st, hx⟩ | ⟨c, hr, hx⟩
    · rw [synthLoop_done eng B s n l c]
    · rw [synthLoop_putFail eng B s n l c hr] at hret
      exact absurd hret (by simp)
    · rw [synthLoop_drainFuel eng B s n l c hr hx] at hret
      exact absurd hret (by simp)
    · rw [synthLoop_drainError eng B s n l c hr st hx] at hret
      exact absurd hret (by simp)
    · rw [synthLoop_idle eng B s n l c hr hx] at hs
      simp [submits, putEvent] at hs

/-- With a single submission call the claim of C1 holds: when `Process`
returns true after exactly one `pico_putTextUtf8` call and every drain
reports at most 256 bytes, the bytes given to `ao_play`, in call order, are
the bytes drained from the engine, in order. -/
theorem Process_single_submission {E : Type} (eng : Engine E) (fuel : Nat) (s : Pico) (e0 : E)
    (text : StdString)
    (hret : (Process eng fuel s e0 text).outcome = Outcome.returned true)
    (hone : (submits (Process eng fuel s e0 text).events).length = 1)
    (hd : ∀ ev ∈ (Process eng fuel s e0 text).events, ev.drainsAtMost OUT_BUFFER_SIZE) :
    (played (Process eng fuel s e0 text).events).flatten =
      (drained (Process eng fuel s e0 text).events).flatten := by
  unfold Process at hret hone hd ⊢
  cases fuel with
  | zero => exact absurd hret (by simp [synthLoop])
  | succ n =>
    have hl0 : (initialLocals s e0 text).bufferOK :=
      ⟨by simp [initialLocals], by simp [initialLocals]⟩
    have hl1 : (afterPut (takeChunk (initialLocals s e0 text))
        (putAnswer eng (submittedBytes s text) (initialLocals s e0 text))).bufferOK := by
      obtain ⟨t1, t2, _⟩ := takeChunk_buffer (initialLocals s e0 text)
      exact ⟨by simpa [afterPut, t1] using hl0.1, by simpa [afterPut, t2] using hl0.2⟩
    have hu0 : (afterPut (takeChunk (initialLocals s e0 text))
        (putAnswer eng (submittedBytes s text) (initialLocals s e0 text))).bufferUsed = 0 := by
      obtain ⟨_, t2, _⟩ := takeChunk_buffer (initialLocals s e0 text)
      show (takeChunk (initialLocals s e0 text)).bufferUsed = 0
      rw [t2]
      rfl
    rcases synthLoop_cases eng (submittedBytes s text) n (initialLocals s e0 text) with
      c | ⟨c, hr⟩ | ⟨c, hr, hx⟩ | ⟨c, hr, st, hx⟩ | ⟨c, hr, hx⟩
    · rw [synthLoop_done eng _ s n _ c] at hone
      simp [submits] at hone
    · rw [synthLoop_putFail eng _ s n _ c hr] at hret
      exact absurd hret (by simp)
    · rw [synthLoop_drainFuel eng _ s n _ c hr hx] at hret
      exact absurd hret (by simp)
    · rw [synthLoop_drainError eng _ s n _ c hr st hx] at hret
      exact absurd hret (by simp)
    · rw [synthLoop_idle eng _ s n _ c hr hx] at hret hone hd ⊢
      obtain ⟨_, _, _, f4⟩ := drainLoop_frame eng n (afterPut
        (takeChunk (initialLocals s e0 text))
        (putAnswer eng (submittedBytes s text) (initialLocals s e0 text)))
      have g4 : submits (drainOf eng (submittedBytes s text) n
          (initialLocals s e0 text)).events = [] := f4
      simp only [] at hret hone hd ⊢
      rw [submits_iteration eng _ _ _ _ _ g4] at hone
      have hrs : submits (synthLoop eng (submittedBytes s text) s n
          (drainOf eng (submittedBytes s text) n (initialLocals s e0 text)).locals).events =
          [] := by
        apply List.length_eq_zero.mp
        simp only [List.length_cons] at hone
        omega
      have hre := synthLoop_no_submit eng _ s n _ hret hrs
      rw [hre] at hd ⊢
      have hplays := drainLoop_plays eng n _ hl1
        (fun ev hev => hd ev (by
          simp only [List.mem_cons, List.mem_append]
          exact Or.inl (Or.inr hev)))
        (fun st => by
          have : (drainOf eng (submittedBytes s text) n (initialLocals s e0 text)).exit =
            DrainExit.idle := hx
          intro he
          have he' : (drainOf eng (submittedBytes s text) n (initialLocals s e0 text)).exit =
            DrainExit.error st := he
          rw [this] at he'
          exact absurd he' (by simp))
      rw [hu0] at hplays
      simp only [List.take_zero, List.nil_append] at hplays
      have hp : played (putEvent eng (submittedBytes s text) (initialLocals s e0 text) ::
            (drainOf eng (submittedBytes s text) n (initialLocals s e0 text)).events ++
            [finalPlay (drainOf eng (submittedBytes s text) n
              (initialLocals s e0 text)).locals]) =
          played (drainOf eng (submittedBytes s text) n (initialLocals s e0 text)).events ++
            [List.take (drainOf eng (submittedBytes s text) n
                (initialLocals s e0 text)).locals.bufferUsed
              (drainOf eng (submittedBytes s text) n
                (initialLocals s e0 text)).locals.pcmBuffer] := by
        rw [List.cons_append]
        show played (_ ++ _) = _
        rw [played_append]
        rfl
      have hdr : drained (putEvent eng (submittedBytes s text) (initialLocals s e0 text) ::
            (drainOf eng (submittedBytes s text) n (initialLocals s e0 text)).events ++
            [finalPlay (drainOf eng (submittedBytes s text) n
              (initialLocals s e0 text)).locals]) =
          drained (drainOf eng (submittedBytes s text) n (initialLocals s e0 text)).events := by
        rw [List.cons_append]
        show drained (_ ++ _) = _
        rw [drained_append]
        show _ ++ [] = _
        rw [List.append_nil]
      rw [hp, hdr, List.flatten_append, List.flatten_cons, List.flatten_nil, List.append_nil]
      exact hplays

theorem twoSampleEngine_run (B pcm : List Byte) (s : Pico) (hB : B.length = 32768) :
    synthLoop twoSampleEngine B s 4
      { engine := 0, pcmBuffer := pcm, bufferUsed := 0,
        textLength := 32768, computeLength := 0, picoPtr := 0 } =
      { outcome := Outcome.returned true, session := s,
        locals := { engine := 5, pcmBuffer := writeAt pcm 0 [1, 2],
                    bufferUsed := 2, textLength := 0, computeLength := 0, picoPtr := 32768 },
        events := [Event.putText 0 32767 0 32767, Event.getData 201 [1, 2], Event.memcpy 0 2,
          Event.getData 200 [], Event.ao_play [1, 2] 2,
          Event.putText 32767 1 0 1, Event.getData 200 [], Event.ao_play [1, 2] 2] } := by
  simp [synthLoop, drainLoop, takeChunk, afterPut, afterGet, accumulate, twoSampleEngine, wrap16,
    chunkAt, hB, PICO_STEP_IDLE, PICO_STEP_BUSY, PCM_BUFFER_SIZE, writeAt]

theorem longText_events :
    (Process twoSampleEngine 4 neutralSession 0 longText).outcome = Outcome.returned true ∧
    (Process twoSampleEngine 4 neutralSession 0 longText).events =
      [Event.putText 0 32767 0 32767, Event.getData 201 [1, 2], Event.memcpy 0 2,
        Event.getData 200 [], Event.ao_play [1, 2] 2,
        Event.putText 32767 1 0 1, Event.getData 200 [], Event.ao_play [1, 2] 2] := by
  have hs : submittedString neutralSession longText = longText := rfl
  have hl : longText.length = 32767 := List.length_replicate 32767 97
  have hB : (c_str longText).length = 32768 := by
    rw [c_str, List.length_append, hl, List.length_singleton]
  have hrun := twoSampleEngine_run (c_str longText) (List.replicate PCM_BUFFER_SIZE 0)
    neutralSession hB
  have hp : Process twoSampleEngine 4 neutralSession 0 longText =
      synthLoop twoSampleEngine (c_str longText) neutralSession 4
        { engine := 0, pcmBuffer := List.replicate PCM_BUFFER_SIZE 0, bufferUsed := 0,
          textLength := 32768, computeLength := 0, picoPtr := 0 } := by
    unfold Process initialLocals submittedBytes
    rw [hs, hl]
    rfl
  rw [hp, hrun]
  exact ⟨rfl, rfl⟩

/-- C1 on a 32767-byte text under neutral prosody, with an engine that
consumes everything and produces the two sample bytes 1, 2 after the first
submission only: every call succeeds, `Process` returns true after two
submissions (32767 bytes, then 1), the engine has produced the bytes 1, 2
once, and `ao_play` is given them twice. -/
theorem Process_replays_flushed_bytes :
    (Process twoSampleEngine 4 neutralSession 0 longText).outcome = Outcome.returned true ∧
    submits (Process twoSampleEngine 4 neutralSession 0 longText).events =
      [⟨0, 32767, 32767⟩, ⟨32767, 1, 1⟩] ∧
    drained (Process twoSampleEngine 4 neutralSession 0 longText).events = [[1, 2], [], []] ∧
    played (Process twoSampleEngine 4 neutralSession 0 longText).events = [[1, 2], [1, 2]] ∧
    (played (Process twoSampleEngine 4 neutralSession 0 longText).events).flatten ≠
      (drained (Process twoSampleEngine 4 neutralSession 0 longText).events).flatten := by
  rw [longText_events.2]
  exact ⟨longText_events.1, by decide, by decide, by decide, by decide⟩

end PicoVoice
